import Mathlib

/-!
# Session-scoped study history of `FrontEnd/src/App.jsx`

A shallow embedding of the React component `App`: the session storage it reads and writes,
its hook state, its two effects, its event handlers and the expiry timeout, together with the
runtime functions they call (`Number`, `String`, `JSON.parse`, `JSON.stringify`, `sha256`).
Times are integral milliseconds.

`AppState`, `commit`, `mount`, `step` and `run` describe the component while it is mounted:
every render completes and the browser accepts every write.  `Page` adds what happens
otherwise: a render that throws (`renders`) or a write that is refused (`Quota`) unmounts
the component and leaves the storage as it was.
-/

namespace JS

/-- Decimal digit character of a value below ten. -/
def digitChar (d : Nat) : Char := Char.ofNat (48 + d)

/-- Decimal digits of a natural number, most significant first (fuel bounds the digit count). -/
def natDigits : Nat → Nat → List Char
  | 0, _ => []
  | fuel + 1, n =>
    if n < 10 then [digitChar n] else natDigits fuel (n / 10) ++ [digitChar (n % 10)]

/-- Decimal rendering of an integer, as `String(n)` and template literals produce it for
integral numbers. -/
def intChars (n : Int) : List Char :=
  if n < 0 then '-' :: natDigits (n.natAbs + 1) n.natAbs else natDigits (n.natAbs + 1) n.natAbs

/-- `String(n)` for an integral number `n`. -/
def StringOf (n : Int) : String := String.mk (intChars n)

def isDigit (c : Char) : Bool := decide (48 ≤ c.toNat) && decide (c.toNat ≤ 57)

/-- Value of a run of decimal digits. -/
def digitsVal (cs : List Char) : Nat := cs.foldl (fun acc c => acc * 10 + (c.toNat - 48)) 0

/-- White space that `Number` strips from both ends of its argument. -/
def isStrWhiteSpace (c : Char) : Bool :=
  c.toNat = 9 || c.toNat = 10 || c.toNat = 11 || c.toNat = 12 || c.toNat = 13 || c.toNat = 32
    || c.toNat = 160 || c.toNat = 0x1680 || (0x2000 ≤ c.toNat && c.toNat ≤ 0x200A)
    || c.toNat = 0x2028 || c.toNat = 0x2029 || c.toNat = 0x202F || c.toNat = 0x205F
    || c.toNat = 0x3000 || c.toNat = 0xFEFF

def trimChars (cs : List Char) : List Char :=
  ((cs.dropWhile isStrWhiteSpace).reverse.dropWhile isStrWhiteSpace).reverse

/-- `Number(str)` on integral decimal text: `none` is `NaN`.  White space is trimmed, the
empty text is `0`, an optional sign is followed by decimal digits.  Text that denotes a
number in another way (a fraction, an exponent, a radix mark, `Infinity`) is outside this
model and is read as `NaN`; integers are exact at every size. -/
def Number (s : String) : Option Int :=
  match trimChars s.data with
  | [] => some 0
  | c :: cs =>
    if c = '-' then
      if cs ≠ [] ∧ cs.all isDigit then some (-(digitsVal cs : Int)) else none
    else if c = '+' then
      if cs ≠ [] ∧ cs.all isDigit then some (digitsVal cs : Int) else none
    else if (c :: cs).all isDigit then some (digitsVal (c :: cs) : Int) else none

end JS

/-- A JavaScript string: its UTF-16 code units. -/
structure JSString where
  units : List Nat
  deriving DecidableEq

namespace JSString

/-- UTF-16 code units of one character. -/
def ofChar (c : Char) : List Nat :=
  if c.toNat < 65536 then [c.toNat]
  else [55296 + (c.toNat - 65536) / 1024, 56320 + (c.toNat - 65536) % 1024]

/-- The JavaScript string with the given text. -/
def ofString (s : String) : JSString := ⟨s.data.flatMap ofChar⟩

end JSString

instance : Coe String JSString := ⟨JSString.ofString⟩

/-- JavaScript values with a JSON text.  An integer of magnitude at most 2^53 is `num`; every
other number is `float` and stands for the double that its literal denotes (the arithmetic
and the printing of such numbers are not modelled).  The members of an object are its
properties in enumeration order. -/
inductive JSON where
  | null : JSON
  | bool (b : Bool) : JSON
  | num (n : Int) : JSON
  | float (literal : String) : JSON
  | str (s : JSString) : JSON
  | arr (elems : List JSON) : JSON
  | obj (members : List (JSString × JSON)) : JSON

namespace JSON

/-- The double quote character. -/
def quote : Char := Char.ofNat 34
/-- The reverse solidus. -/
def backslash : Char := Char.ofNat 92
def lbrace : Char := Char.ofNat 123
def rbrace : Char := Char.ofNat 125

/-- Lower-case hexadecimal digit of a value below sixteen. -/
def hexDigit (d : Nat) : Char := if d < 10 then Char.ofNat (48 + d) else Char.ofNat (87 + d)

/-- Value of a hexadecimal digit, either case. -/
def hexVal (c : Char) : Option Nat :=
  let n := c.toNat
  if 48 ≤ n ∧ n ≤ 57 then some (n - 48)
  else if 97 ≤ n ∧ n ≤ 102 then some (n - 87)
  else if 65 ≤ n ∧ n ≤ 70 then some (n - 55)
  else none

/-- The escape `\uXXXX` of a code unit. -/
def hexEscape (u : Nat) : List Char :=
  [backslash, 'u', hexDigit (u / 4096 % 16), hexDigit (u / 256 % 16), hexDigit (u / 16 % 16),
    hexDigit (u % 16)]

/-- Text that `JSON.stringify` writes for one character of a string. -/
def escapeChar (c : Char) : List Char :=
  if c = quote then [backslash, quote]
  else if c = backslash then [backslash, backslash]
  else if c.toNat = 8 then [backslash, 'b']
  else if c.toNat = 9 then [backslash, 't']
  else if c.toNat = 10 then [backslash, 'n']
  else if c.toNat = 12 then [backslash, 'f']
  else if c.toNat = 13 then [backslash, 'r']
  else if c.toNat < 32 then hexEscape c.toNat
  else [c]

/-- Is the code unit a leading surrogate? -/
def isHigh (u : Nat) : Bool := decide (55296 ≤ u) && decide (u ≤ 56319)

/-- Is the code unit a trailing surrogate? -/
def isLow (u : Nat) : Bool := decide (56320 ≤ u) && decide (u ≤ 57343)

/-- Text that `JSON.stringify` writes for the code units of a string: a surrogate pair is
written as its character, a lone surrogate as a `\u` escape. -/
def escapeUnits : List Nat → List Char
  | [] => []
  | [u] => if isHigh u || isLow u then hexEscape u else escapeChar (Char.ofNat u)
  | u :: l :: rest =>
    if isHigh u then
      if isLow l then
        Char.ofNat (65536 + (u - 55296) * 1024 + (l - 56320)) :: escapeUnits rest
      else hexEscape u ++ escapeUnits (l :: rest)
    else if isLow u then hexEscape u ++ escapeUnits (l :: rest)
    else escapeChar (Char.ofNat u) ++ escapeUnits (l :: rest)

/-- A quoted string literal. -/
def renderString (s : JSString) : List Char :=
  quote :: (escapeUnits s.units ++ [quote])

mutual
/-- Text of `JSON.stringify(v)`: no white space, members in order. -/
def render : JSON → List Char
  | .null => ['n', 'u', 'l', 'l']
  | .bool true => ['t', 'r', 'u', 'e']
  | .bool false => ['f', 'a', 'l', 's', 'e']
  | .num n => JS.intChars n
  | .float literal => literal.data
  | .str s => renderString s
  | .arr vs => '[' :: (renderElems vs ++ [']'])
  | .obj ms => lbrace :: (renderMembers ms ++ [rbrace])
/-- Elements of an array, separated by commas. -/
def renderElems : List JSON → List Char
  | [] => []
  | v :: vs => render v ++ (match vs with
    | [] => []
    | _ :: _ => ',' :: renderElems vs)
/-- Members of an object, separated by commas. -/
def renderMembers : List (JSString × JSON) → List Char
  | [] => []
  | (k, v) :: ms => renderString k ++ (':' :: render v) ++ (match ms with
    | [] => []
    | _ :: _ => ',' :: renderMembers ms)
end

/-- `JSON.stringify(v)`. -/
def stringify (v : JSON) : String := String.mk (render v)

/-- JSON white space. -/
def isWs (c : Char) : Bool := c.toNat = 32 || c.toNat = 9 || c.toNat = 10 || c.toNat = 13

def skipWs : List Char → List Char
  | [] => []
  | c :: cs => if isWs c then skipWs cs else c :: cs

/-- Code unit denoted by a one-letter escape. -/
def unescape (e : Char) : Option Nat :=
  if e = quote then some 34
  else if e = backslash then some 92
  else if e = '/' then some 47
  else if e = 'b' then some 8
  else if e = 'f' then some 12
  else if e = 'n' then some 10
  else if e = 'r' then some 13
  else if e = 't' then some 9
  else none

/-- Code unit denoted by the four hexadecimal digits of a `\u` escape. -/
def hex4 (a b c d : Char) : Option Nat :=
  match hexVal a, hexVal b, hexVal c, hexVal d with
  | some x, some y, some z, some w => some (x * 4096 + y * 256 + z * 16 + w)
  | _, _, _, _ => none

/-- Body of a string literal after the opening quote: the code units it denotes and the text
after the closing quote. -/
def parseChars : List Char → Option (List Nat × List Char)
  | [] => none
  | c :: rest =>
    if c = quote then some ([], rest)
    else if c = backslash then
      match rest with
      | [] => none
      | e :: rest1 =>
        if e = 'u' then
          match rest1 with
          | a :: b :: c1 :: d :: rest2 =>
            match hex4 a b c1 d with
            | some u => (parseChars rest2).map fun p => (u :: p.1, p.2)
            | none => none
          | _ => none
        else
          match unescape e with
          | some u => (parseChars rest1).map fun p => (u :: p.1, p.2)
          | none => none
    else if c.toNat < 32 then none
    else (parseChars rest).map fun p => (JSString.ofChar c ++ p.1, p.2)

/-- Does the text start with the given characters?  Returns the remainder. -/
def expect : List Char → List Char → Option (List Char)
  | [], cs => some cs
  | _ :: _, [] => none
  | w :: ws, c :: cs => if w = c then expect ws cs else none

/-- The fraction part of a number literal, if there is one: its characters and the text after
it.  A point that no digit follows is a syntax error. -/
def fractionPart (cs : List Char) : Option (List Char × List Char) :=
  match cs with
  | [] => some ([], [])
  | c :: tl =>
    if c = '.' then
      if tl.takeWhile JS.isDigit = [] then none
      else some (c :: tl.takeWhile JS.isDigit, tl.dropWhile JS.isDigit)
    else some ([], c :: tl)

/-- The sign of an exponent, if there is one. -/
def exponentSign (cs : List Char) : List Char × List Char :=
  match cs with
  | [] => ([], [])
  | c :: tl => if c = '+' ∨ c = '-' then ([c], tl) else ([], c :: tl)

/-- The exponent part of a number literal, if there is one.  An exponent mark that no digit
follows is a syntax error. -/
def exponentPart (cs : List Char) : Option (List Char × List Char) :=
  match cs with
  | [] => some ([], [])
  | c :: tl =>
    if c = 'e' ∨ c = 'E' then
      if (exponentSign tl).2.takeWhile JS.isDigit = [] then none
      else some (c :: ((exponentSign tl).1 ++ (exponentSign tl).2.takeWhile JS.isDigit),
        (exponentSign tl).2.dropWhile JS.isDigit)
    else some ([], c :: tl)

/-- Largest magnitude up to which every integer is a double. -/
def MAX_EXACT : Nat := 9007199254740992

/-- A number literal: an optional minus sign, `0` or a digit run without leading zero, an
optional fraction and an optional exponent.  A plain integer of magnitude at most 2^53 is
read as that integer, any other literal is kept as the literal. -/
def parseNumber (cs : List Char) : Option (JSON × List Char) :=
  let neg := cs.head? = some '-'
  let body := if neg then cs.tail else cs
  let ds := body.takeWhile JS.isDigit
  if ds = [] then none
  else if ds.head? = some '0' ∧ ds.length ≠ 1 then none
  else
    match fractionPart (body.dropWhile JS.isDigit) with
    | none => none
    | some (frac, rest1) =>
      match exponentPart rest1 with
      | none => none
      | some (exp, rest2) =>
        if frac = [] ∧ exp = [] ∧ JS.digitsVal ds ≤ MAX_EXACT then
          some (.num (if neg then -(JS.digitsVal ds : Int) else (JS.digitsVal ds : Int)), rest2)
        else
          some (.float (String.mk ((if neg then ['-'] else []) ++ ds ++ frac ++ exp)), rest2)

/-- The array index that a property key denotes, when the key is the canonical decimal text
of an integer below 2^32 - 1. -/
def arrayIndex (k : JSString) : Option Nat :=
  if k.units = [] then none
  else if k.units.all (fun u => decide (48 ≤ u) && decide (u ≤ 57)) then
    if k.units.head? = some 48 ∧ k.units.length ≠ 1 then none
    else if k.units.foldl (fun acc u => acc * 10 + (u - 48)) 0 < 4294967295 then
      some (k.units.foldl (fun acc u => acc * 10 + (u - 48)) 0)
    else none
  else none

/-- Puts a new array-index property in its place: after the smaller indices and before
everything else. -/
def insertIndex (i : Nat) (k : JSString) (v : JSON) :
    List (JSString × JSON) → List (JSString × JSON)
  | [] => [(k, v)]
  | m :: ms =>
    match arrayIndex m.1 with
    | some j => if j < i then m :: insertIndex i k v ms else (k, v) :: m :: ms
    | none => (k, v) :: m :: ms

/-- `CreateDataProperty` on the properties of an object: an existing property keeps its place
and takes the new value, a new array index goes among the indices in ascending order, any
other new key goes to the end. -/
def defineProp (ms : List (JSString × JSON)) (k : JSString) (v : JSON) :
    List (JSString × JSON) :=
  if ms.any (fun m => m.1 = k) then ms.map fun m => if m.1 = k then (k, v) else m
  else
    match arrayIndex k with
    | some i => insertIndex i k v ms
    | none => ms ++ [(k, v)]

/-- The object that `JSON.parse` builds from the members of an object literal in source
order. -/
def objectOf (members : List (JSString × JSON)) : JSON :=
  .obj (members.foldl (fun acc m => defineProp acc m.1 m.2) [])

mutual
/-- One JSON value, with leading white space; returns the value and the remaining text. -/
def parseValue : Nat → List Char → Option (JSON × List Char)
  | 0, _ => none
  | fuel + 1, cs =>
    match skipWs cs with
    | [] => none
    | c :: rest =>
      if c = '[' then
        match skipWs rest with
        | [] => none
        | c1 :: rest1 =>
          if c1 = ']' then some (.arr [], rest1)
          else (parseElems fuel rest).map fun p => (.arr p.1, p.2)
      else if c = lbrace then
        match skipWs rest with
        | [] => none
        | c1 :: rest1 =>
          if c1 = rbrace then some (.obj [], rest1)
          else (parseMembers fuel rest).map fun p => (objectOf p.1, p.2)
      else if c = quote then
        (parseChars rest).map fun p => (.str ⟨p.1⟩, p.2)
      else if c = 'n' then (expect ['u', 'l', 'l'] rest).map fun r => (.null, r)
      else if c = 't' then (expect ['r', 'u', 'e'] rest).map fun r => (.bool true, r)
      else if c = 'f' then (expect ['a', 'l', 's', 'e'] rest).map fun r => (.bool false, r)
      else parseNumber (c :: rest)
/-- Elements of a non-empty array up to and including the closing bracket. -/
def parseElems : Nat → List Char → Option (List JSON × List Char)
  | 0, _ => none
  | fuel + 1, cs =>
    match parseValue fuel cs with
    | none => none
    | some (v, rest) =>
      match skipWs rest with
      | [] => none
      | c :: rest1 =>
        if c = ',' then (parseElems fuel rest1).map fun p => (v :: p.1, p.2)
        else if c = ']' then some ([v], rest1)
        else none
/-- Members of a non-empty object literal, in source order, up to and including the closing
brace. -/
def parseMembers : Nat → List Char → Option (List (JSString × JSON) × List Char)
  | 0, _ => none
  | fuel + 1, cs =>
    match skipWs cs with
    | [] => none
    | q :: rest =>
      if q = quote then
        match parseChars rest with
        | none => none
        | some (k, rest1) =>
          match skipWs rest1 with
          | [] => none
          | c :: rest2 =>
            if c = ':' then
              match parseValue fuel rest2 with
              | none => none
              | some (v, rest3) =>
                match skipWs rest3 with
                | [] => none
                | c1 :: rest4 =>
                  if c1 = ',' then
                    (parseMembers fuel rest4).map fun p => ((⟨k⟩, v) :: p.1, p.2)
                  else if c1 = rbrace then some ([(⟨k⟩, v)], rest4)
                  else none
            else none
      else none
end

/-- `JSON.parse(text)`: `none` stands for the `SyntaxError` it throws. -/
def parse (text : String) : Option JSON :=
  match parseValue (2 * text.length + 2) text.data with
  | none => none
  | some (v, rest) => if skipWs rest = [] then some v else none

/-- A fuelled parser gives a result that does not depend on the fuel: a result obtained with
fuel `f` leaves less text than it was given and is obtained again with any fuel that is at
least the number of characters consumed. -/
def FuelFree {α : Type} (p : Nat → List Char → Option (α × List Char)) (f : Nat) : Prop :=
  ∀ cs a rest, p f cs = some (a, rest) →
    rest.length < cs.length ∧ ∀ g, cs.length - rest.length ≤ g → p g cs = some (a, rest)

/-- Property read `v[key]`: `none` is `undefined`.  Of several members with one key the last
is the one a JavaScript object keeps. -/
def getProp (v : JSON) (key : String) : Option JSON :=
  match v with
  | .obj ms => (ms.reverse.find? fun m => m.1 = JSString.ofString key).map fun m => m.2
  | _ => none

mutual
/-- The values on which this model is exact: no `float`, integers of magnitude at most 2^53,
strings of code units, objects whose keys are distinct and none an array index. -/
def exact : JSON → Bool
  | .null => true
  | .bool _ => true
  | .num n => decide (n.natAbs ≤ MAX_EXACT)
  | .float _ => false
  | .str s => s.units.all fun u => decide (u < 65536)
  | .arr vs => exactAll vs
  | .obj ms => exactMembers ms
def exactAll : List JSON → Bool
  | [] => true
  | v :: vs => exact v && exactAll vs
def exactMembers : List (JSString × JSON) → Bool
  | [] => true
  | (k, v) :: ms =>
    (k.units.all fun u => decide (u < 65536)) && (arrayIndex k).isNone
      && !(ms.any fun m => m.1 = k) && exact v && exactMembers ms
end

mutual
/-- Can React render the value as a child?  A plain object is not a valid child; an array is
rendered element by element; every primitive is rendered or skipped. -/
def renderable : JSON → Bool
  | .obj _ => false
  | .arr vs => renderableAll vs
  | _ => true
def renderableAll : List JSON → Bool
  | [] => true
  | v :: vs => renderable v && renderableAll vs
end

mutual
/-- Can the value be converted to a string or a primitive, as `'' + v` and `new Date(v)` do?
An object is converted by its `toString`, and an own member of that name hides the inherited
function with a value that cannot be called; an array is converted element by element. -/
def stringable : JSON → Bool
  | .obj ms => !(ms.any fun m => m.1 = JSString.ofString "toString")
  | .arr vs => stringableAll vs
  | _ => true
def stringableAll : List JSON → Bool
  | [] => true
  | v :: vs => stringable v && stringableAll vs
end

end JSON

namespace SHA256

/-- UTF-8 bytes of one character. -/
def utf8Char (c : Char) : List Nat :=
  let n := c.toNat
  if n < 0x80 then [n]
  else if n < 0x800 then [0xC0 + n / 64, 0x80 + n % 64]
  else if n < 0x10000 then [0xE0 + n / 4096, 0x80 + n / 64 % 64, 0x80 + n % 64]
  else [0xF0 + n / 262144, 0x80 + n / 4096 % 64, 0x80 + n / 64 % 64, 0x80 + n % 64]

/-- UTF-8 bytes of a string. -/
def utf8 (s : String) : List Nat := s.data.flatMap utf8Char

/-- Round constants. -/
def K : List Nat :=
  [0x428a2f98, 0x71374491, 0xb5c0fbcf, 0xe9b5dba5, 0x3956c25b, 0x59f111f1, 0x923f82a4, 0xab1c5ed5,
   0xd807aa98, 0x12835b01, 0x243185be, 0x550c7dc3, 0x72be5d74, 0x80deb1fe, 0x9bdc06a7, 0xc19bf174,
   0xe49b69c1, 0xefbe4786, 0x0fc19dc6, 0x240ca1cc, 0x2de92c6f, 0x4a7484aa, 0x5cb0a9dc, 0x76f988da,
   0x983e5152, 0xa831c66d, 0xb00327c8, 0xbf597fc7, 0xc6e00bf3, 0xd5a79147, 0x06ca6351, 0x14292967,
   0x27b70a85, 0x2e1b2138, 0x4d2c6dfc, 0x53380d13, 0x650a7354, 0x766a0abb, 0x81c2c92e, 0x92722c85,
   0xa2bfe8a1, 0xa81a664b, 0xc24b8b70, 0xc76c51a3, 0xd192e819, 0xd6990624, 0xf40e3585, 0x106aa070,
   0x19a4c116, 0x1e376c08, 0x2748774c, 0x34b0bcb5, 0x391c0cb3, 0x4ed8aa4a, 0x5b9cca4f, 0x682e6ff3,
   0x748f82ee, 0x78a5636f, 0x84c87814, 0x8cc70208, 0x90befffa, 0xa4506ceb, 0xbef9a3f7, 0xc67178f2]

/-- The eight 32-bit working words. -/
structure Words where
  a : Nat
  b : Nat
  c : Nat
  d : Nat
  e : Nat
  f : Nat
  g : Nat
  h : Nat

/-- Initial hash value. -/
def H0 : Words :=
  ⟨0x6a09e667, 0xbb67ae85, 0x3c6ef372, 0xa54ff53a, 0x510e527f, 0x9b05688c, 0x1f83d9ab, 0x5be0cd19⟩

def W32 : Nat := 4294967296

/-- Rotate a 32-bit word right. -/
def rotr (x n : Nat) : Nat := (x / 2 ^ n + x % 2 ^ n * 2 ^ (32 - n)) % W32

/-- Message padding: a one bit, zeros up to 56 mod 64, then the bit length on 8 bytes. -/
def pad (msg : List Nat) : List Nat :=
  let len := msg.length
  let zeros := (64 + 55 - len % 64) % 64
  let bits := len * 8
  msg ++ 0x80 :: List.replicate zeros 0 ++
    (List.range 8).map fun i => bits / 2 ^ (8 * (7 - i)) % 256

/-- Big-endian 32-bit words of a byte list (whole words only). -/
def toWords : List Nat → List Nat
  | b0 :: b1 :: b2 :: b3 :: rest => (b0 * 16777216 + b1 * 65536 + b2 * 256 + b3) :: toWords rest
  | _ => []

/-- Message schedule: extends the 16 words of a block (kept newest first). -/
def schedule : Nat → List Nat → List Nat
  | 0, w => w
  | n + 1, w =>
    let w2 := w.getD 1 0
    let w7 := w.getD 6 0
    let w15 := w.getD 14 0
    let w16 := w.getD 15 0
    let s0 := Nat.xor (Nat.xor (rotr w15 7) (rotr w15 18)) (w15 / 2 ^ 3)
    let s1 := Nat.xor (Nat.xor (rotr w2 17) (rotr w2 19)) (w2 / 2 ^ 10)
    schedule n (((w16 + s0 + w7 + s1) % W32) :: w)

/-- One round of the compression function. -/
def round (s : Words) (k w : Nat) : Words :=
  let S1 := Nat.xor (Nat.xor (rotr s.e 6) (rotr s.e 11)) (rotr s.e 25)
  let ch := Nat.xor (Nat.land s.e s.f) (Nat.land (W32 - 1 - s.e) s.g)
  let t1 := (s.h + S1 + ch + k + w) % W32
  let S0 := Nat.xor (Nat.xor (rotr s.a 2) (rotr s.a 13)) (rotr s.a 22)
  let maj := Nat.xor (Nat.xor (Nat.land s.a s.b) (Nat.land s.a s.c)) (Nat.land s.b s.c)
  let t2 := (S0 + maj) % W32
  ⟨(t1 + t2) % W32, s.a, s.b, s.c, (s.d + t1) % W32, s.e, s.f, s.g⟩

def rounds : List Nat → List Nat → Words → Words
  | k :: ks, w :: ws, s => rounds ks ws (round s k w)
  | _, _, s => s

/-- Compression of one 16-word block into the hash value. -/
def compress (hv : Words) (block : List Nat) : Words :=
  let w := (schedule 48 block.reverse).reverse
  let s := rounds K w hv
  ⟨(hv.a + s.a) % W32, (hv.b + s.b) % W32, (hv.c + s.c) % W32, (hv.d + s.d) % W32,
   (hv.e + s.e) % W32, (hv.f + s.f) % W32, (hv.g + s.g) % W32, (hv.h + s.h) % W32⟩

/-- Folds the blocks of sixteen words (fuel bounds the number of blocks). -/
def blocks : Nat → Words → List Nat → Words
  | 0, hv, _ => hv
  | fuel + 1, hv, ws => if ws.length < 16 then hv else blocks fuel (compress hv (ws.take 16)) (ws.drop 16)

def hexDigit (d : Nat) : Char := if d < 10 then Char.ofNat (48 + d) else Char.ofNat (87 + d)

/-- Eight lower-case hexadecimal digits of a 32-bit word. -/
def wordHex (w : Nat) : List Char :=
  [hexDigit (w / 268435456 % 16), hexDigit (w / 16777216 % 16), hexDigit (w / 1048576 % 16),
   hexDigit (w / 65536 % 16), hexDigit (w / 4096 % 16), hexDigit (w / 256 % 16),
   hexDigit (w / 16 % 16), hexDigit (w % 16)]

/-- The digest as 64 hexadecimal characters. -/
def digestChars (s : String) : List Char :=
  let ws := toWords (pad (utf8 s))
  let hv := blocks ws.length H0 ws
  wordHex hv.a ++ wordHex hv.b ++ wordHex hv.c ++ wordHex hv.d ++
    wordHex hv.e ++ wordHex hv.f ++ wordHex hv.g ++ wordHex hv.h

/-- Is the character a lower-case hexadecimal digit? -/
def isHexChar (c : Char) : Bool := "0123456789abcdef".data.contains c

/-- `sha256(str)` of js-sha256: lower-case hexadecimal digest of the UTF-8 bytes. -/
def sha256 (s : String) : String := String.mk (digestChars s)

end SHA256

/-! ## Session storage -/

/-- The key/value store behind `sessionStorage`: entries in insertion order. -/
structure Storage where
  entries : List (String × String)

namespace Storage

/-- `sessionStorage.getItem(key)`: `none` is `null`. -/
def getItem (st : Storage) (key : String) : Option String :=
  (st.entries.find? fun e => e.1 = key).map fun e => e.2

/-- `sessionStorage.setItem(key, value)` when the browser accepts the write; whether it does
is the `Quota` of a `Page`. -/
def setItem (st : Storage) (key value : String) : Storage :=
  if st.entries.any (fun e => e.1 = key) then
    ⟨st.entries.map fun e => if e.1 = key then (key, value) else e⟩
  else ⟨st.entries ++ [(key, value)]⟩

/-- `sessionStorage.removeItem(key)`. -/
def removeItem (st : Storage) (key : String) : Storage :=
  ⟨st.entries.filter fun e => e.1 ≠ key⟩

/-- `sessionStorage.clear()`. -/
def clear (_st : Storage) : Storage := ⟨[]⟩

end Storage

/-! ## The component -/

/-- Key of the persisted history (`STORAGE_KEYS.HISTORY`). -/
def STORAGE_KEYS.HISTORY : String := "rx_history"

/-- Key of the persisted session start (`STORAGE_KEYS.SESSION_START`). -/
def STORAGE_KEYS.SESSION_START : String := "session_start_ms"

/-- Length of a session window in milliseconds. -/
def FOUR_HOURS_MS : Int := 4 * 60 * 60 * 1000

/-- The selected file, as far as the component looks at it. -/
structure File where
  name : String

/-- A pending `setTimeout`: when it was set and the delay it was given. -/
structure Timer where
  setAt : Int
  delay : Int

/-- The hook state of `App`, the session storage, the pending expiry timeout and the number
of prediction requests that have been started and have not settled yet. -/
structure AppState where
  file : Option File
  loading : Bool
  result : JSON
  history : List JSON
  selected : Option JSON
  fileHint : String
  sessionStorage : Storage
  timer : Option Timer
  inFlight : Nat

/-- State of the first render: the `useState` initial values over the given storage. -/
def initialState (storage : Storage) : AppState :=
  ⟨none, false, .str "", [], none, "", storage, none, 0⟩

/-- The branch of the mount effect that starts a fresh window (lines 94-96). -/
def freshWindow (now : Int) (s : AppState) : AppState :=
  { s with
    sessionStorage := (s.sessionStorage.clear).setItem STORAGE_KEYS.SESSION_START (JS.StringOf now)
    history := [] }

/-- History read back from the persisted text (lines 98-106): nothing is set when the text is
absent or empty, a parsed array is taken as it is, anything else gives the empty list. -/
def hydrate (saved : Option String) (current : List JSON) : List JSON :=
  match saved with
  | none => current
  | some text =>
    if text = "" then current
    else
      match JSON.parse text with
      | some (.arr parsed) => parsed
      | some _ => []
      | none => []

/-- The mount effect (lines 88-117) run at time `now`. -/
def mountEffect (now : Int) (s : AppState) : AppState :=
  match s.sessionStorage.getItem STORAGE_KEYS.SESSION_START with
  | none => freshWindow now s
  | some startRaw =>
    if startRaw = "" then freshWindow now s
    else
      match JS.Number startRaw with
      | none => freshWindow now s
      | some startMs =>
        if startMs = 0 ∨ now - startMs ≥ FOUR_HOURS_MS then freshWindow now s
        else
          let remaining := FOUR_HOURS_MS - (now - startMs)
          { s with
            history := hydrate (s.sessionStorage.getItem STORAGE_KEYS.HISTORY) s.history
            timer := some ⟨now, max 0 remaining⟩ }

/-- The persist effect (lines 119-121) for the history value of the render it belongs to. -/
def persistEffect (history : List JSON) (s : AppState) : AppState :=
  { s with
    sessionStorage :=
      s.sessionStorage.setItem STORAGE_KEYS.HISTORY (JSON.stringify (.arr history)) }

/-- A render that follows a `setHistory` call, when it completes: the persist effect runs
with the new list.  `Page.rerender` tells whether the render completes. -/
def commit (s : AppState) : AppState := persistEffect s.history s

/-- Loading the page at time `now` over the given storage: the first commit runs the mount
effect and then the persist effect of the first render (whose history is the initial empty
list); the render caused by `setHistory` runs the persist effect again.  When the mount
effect did not call `setHistory` that last step rewrites the value already stored.  This is
the state of the component when it is still mounted after the load; `Page.load` tells whether
it is. -/
def mount (now : Int) (storage : Storage) : AppState :=
  let s0 := initialState storage
  commit (persistEffect s0.history (mountEffect now s0))

/-- The timeout callback (lines 108-114) run at time `now`. -/
def expiryCallback (now : Int) (s : AppState) : AppState :=
  { s with
    sessionStorage := (s.sessionStorage.clear).setItem STORAGE_KEYS.SESSION_START (JS.StringOf now)
    history := []
    selected := none
    result := .str ""
    timer := none }

/-- The file input changed (lines 132-142). -/
def handleFileChange (f : Option File) (s : AppState) : AppState :=
  match f with
  | some file => { s with file := some file, fileHint := "Archivo cargado correctamente ✅" }
  | none => { s with file := none, fileHint := "" }

/-- How the `fetch` of the prediction endpoint ends: it rejects, or it yields a response with
its `ok` flag and the outcome of `r.json()` (`none` when that rejects). -/
inductive FetchOutcome where
  | rejected : FetchOutcome
  | response (ok : Bool) (json : Option JSON) : FetchOutcome

/-- How `readAsDataURL(file)` ends. -/
inductive ReadOutcome where
  | rejected : ReadOutcome
  | loaded (dataUrl : String) : ReadOutcome

/-- Value of the first promise given to `Promise.all` (lines 159-164): `none` when it
rejects. -/
def apiResult : FetchOutcome → Option JSON
  | .rejected => none
  | .response ok json => if ok then json else none

/-- The synchronous part of `handleSubmit` (lines 148-166): nothing without a file, otherwise
the request is started. -/
def handleSubmitStart (s : AppState) : AppState :=
  match s.file with
  | none => s
  | some _ => { s with loading := true, result := .str "", inFlight := s.inFlight + 1 }

/-- Placeholder diagnosis. -/
def NO_DIAGNOSIS : String := "Diagnóstico no disponible"

/-- Message shown when a submission fails. -/
def SERVER_ERROR : String := "Error al conectar con el servidor"

/-- The expression `apiRes?.prediction ?? placeholder` (line 168). -/
def diagnosisOf (apiRes : JSON) : JSON :=
  match apiRes.getProp "prediction" with
  | none => .str NO_DIAGNOSIS
  | some .null => .str NO_DIAGNOSIS
  | some v => v

/-- `sha256Hex(str)` (lines 69-71). -/
def sha256Hex (str : String) : String := SHA256.sha256 str

/-- The display identifier (lines 173-174). -/
def displayIdOf (saltHex fileName : String) (tsNow : Int) : String :=
  String.mk ((sha256Hex (saltHex ++ "|" ++ fileName ++ "|" ++ JS.StringOf tsNow)).data.take 12)

/-- The record built on success (lines 176-182). -/
def newItemOf (id : String) (tsNow : Int) (diagnosis : JSON) (dataUrl displayId : String) :
    JSON :=
  .obj [("id", .str id), ("ts", .num tsNow), ("diagnosis", diagnosis),
    ("imageDataUrl", .str dataUrl), ("displayId", .str displayId)]

/-- The updater `(prev) => [newItem, ...prev]` given to `setHistory` (line 184). -/
def prependItem (newItem : JSON) (prev : List JSON) : List JSON := newItem :: prev

/-- The part of `handleSubmit` that runs when both promises have settled (lines 157-190), for
the file captured when the submission started, the salt returned by `randomHex(16)`, the
identifier returned by `uuidv4()` and the time returned by `Date.now()`. -/
def handleSubmitSettle (file : File) (fetched : FetchOutcome) (read : ReadOutcome)
    (saltHex id : String) (tsNow : Int) (s : AppState) : AppState :=
  match apiResult fetched, read with
  | some apiRes, .loaded dataUrl =>
    let diagnosis := diagnosisOf apiRes
    let displayId := displayIdOf saltHex file.name tsNow
    let newItem := newItemOf id tsNow diagnosis dataUrl displayId
    { s with
      result := diagnosis
      history := prependItem newItem s.history
      loading := false
      inFlight := s.inFlight - 1 }
  | _, _ => { s with result := .str SERVER_ERROR, loading := false, inFlight := s.inFlight - 1 }

/-- The handler `clearSession` (lines 196-201). -/
def clearSession (s : AppState) : AppState :=
  { s with
    history := []
    selected := none
    result := .str ""
    sessionStorage := s.sessionStorage.removeItem STORAGE_KEYS.HISTORY }

/-- The `disabled` attribute of the submit button (line 243). -/
def submitDisabled (s : AppState) : Bool := s.loading || s.file.isNone

/-- The `disabled` attribute of the clear button (line 257). -/
def clearDisabled (s : AppState) : Bool := s.history.length == 0

/-- A click on the history entry at position `i` (line 297): `setSelected(item)`. -/
def openDetail (i : Nat) (s : AppState) : AppState :=
  match s.history.get? i with
  | none => s
  | some item => { s with selected := some item }

/-- Closing the detail view (lines 324, 345): `setSelected(null)`. -/
def closeDetail (s : AppState) : AppState := { s with selected := none }

/-- What the user and the environment can do to the mounted component. -/
inductive Event where
  | selectFile (f : Option File) : Event
  | submit : Event
  | settle (file : File) (fetched : FetchOutcome) (read : ReadOutcome) (saltHex id : String)
      (tsNow : Int) : Event
  | clear : Event
  | openDetail (i : Nat) : Event
  | closeDetail : Event
  | expire (now : Int) : Event

/-- Is the pending timeout due at time `now`? -/
def timerDue (now : Int) (s : AppState) : Bool :=
  match s.timer with
  | none => false
  | some t => decide (t.setAt + t.delay ≤ now)

/-- One event, followed by the render and effects it causes when the render completes and
the writes are accepted (`Page.react` tells whether they are).  A click reaches its handler
only when the button is enabled, a request settles only when one is in flight, the timeout
fires only when it is pending and due. -/
def step (s : AppState) : Event → AppState
  | .selectFile f => handleFileChange f s
  | .submit => if submitDisabled s then s else handleSubmitStart s
  | .settle file fetched read saltHex id tsNow =>
    if s.inFlight = 0 then s
    else
      match apiResult fetched, read with
      | some _, .loaded _ => commit (handleSubmitSettle file fetched read saltHex id tsNow s)
      | _, _ => handleSubmitSettle file fetched read saltHex id tsNow s
  | .clear => if clearDisabled s then s else commit (clearSession s)
  | .openDetail i => openDetail i s
  | .closeDetail => closeDetail s
  | .expire now => if timerDue now s then commit (expiryCallback now s) else s

/-- A sequence of events. -/
def run (s : AppState) (events : List Event) : AppState := events.foldl step s

/-- The state at time `now` when nothing but the passing of time happens: a pending timeout
fires at the moment it falls due. -/
def advanceTo (now : Int) (s : AppState) : AppState :=
  match s.timer with
  | none => s
  | some t => if t.setAt + t.delay ≤ now then commit (expiryCallback (t.setAt + t.delay) s) else s

/-- What a successful submission brings together: the file, the parsed response body, the
data URL of the file, the salt, the identifier and the time. -/
structure Submission where
  file : File
  apiRes : JSON
  dataUrl : String
  saltHex : String
  id : String
  tsNow : Int

/-- The record that a successful submission puts into the history. -/
def Submission.record (x : Submission) : JSON :=
  newItemOf x.id x.tsNow (diagnosisOf x.apiRes) x.dataUrl (displayIdOf x.saltHex x.file.name x.tsNow)

/-- The two operations on the history: a successful submission and `clearSession`. -/
inductive HistoryOp where
  | add (x : Submission) : HistoryOp
  | clear : HistoryOp

/-- One history operation with the render that follows it, when that render completes. -/
def applyOp (s : AppState) : HistoryOp → AppState
  | .add x =>
    commit (handleSubmitSettle x.file (.response true (some x.apiRes)) (.loaded x.dataUrl)
      x.saltHex x.id x.tsNow s)
  | .clear => commit (clearSession s)

/-- A sequence of history operations. -/
def applyOps (s : AppState) (ops : List HistoryOp) : AppState := ops.foldl applyOp s

/-! ## Renders that throw and writes that are refused -/

/-- A child `{value}` whose value may be `undefined`. -/
def childRenders (p : Option JSON) : Bool :=
  match p with
  | none => true
  | some v => v.renderable

/-- A value that is converted to a string or a primitive, and may be `undefined`. -/
def coerces (p : Option JSON) : Bool :=
  match p with
  | none => true
  | some v => v.stringable

/-- Does the list entry of a history item render (lines 293-315)?  Reading `item.id` throws
on `null`; the key `item.id` and the attribute `item.imageDataUrl` are converted to strings,
`item.ts` is given to `new Date`; `item.displayId` and `item.diagnosis` are rendered as
children. -/
def entryRenders (item : JSON) : Bool :=
  match item with
  | .null => false
  | _ =>
    coerces (item.getProp "id") && coerces (item.getProp "imageDataUrl")
      && coerces (item.getProp "ts") && childRenders (item.getProp "displayId")
      && childRenders (item.getProp "diagnosis")

/-- Does the detail view render (lines 324-349)?  `selected?.displayId` and, for a truthy
`selected`, `selected.diagnosis` are rendered as children, `selected.ts` is given to
`new Date` and `selected.imageDataUrl` is converted to a string. -/
def detailRenders (selected : Option JSON) : Bool :=
  match selected with
  | none => true
  | some item =>
    coerces (item.getProp "imageDataUrl") && coerces (item.getProp "ts")
      && childRenders (item.getProp "displayId") && childRenders (item.getProp "diagnosis")

/-- Does the render of `App` (lines 206-351) complete?  The result (line 266), every entry of
the history and the detail view must render. -/
def renders (s : AppState) : Bool :=
  s.result.renderable && s.history.all entryRenders && detailRenders s.selected

/-- The answer of the browser to `sessionStorage.setItem(key, value)` on a given storage:
`false` is the `QuotaExceededError` it throws when the value does not fit. -/
def Quota : Type := Storage → String → String → Bool

/-- A browser that accepts every write. -/
def Quota.unlimited : Quota := fun _ _ _ => true

/-- What the tab holds: the mounted component, or, after an error thrown by a render or an
effect has unmounted it, nothing but the storage. -/
inductive Page where
  | live (s : AppState) : Page
  | crashed (sessionStorage : Storage) : Page

namespace Page

/-- The session storage of the tab. -/
def storage : Page → Storage
  | .live s => s.sessionStorage
  | .crashed st => st

/-- The render that follows the state updates of a handler or an effect, and the persist
effect after it when `setHistory` was called.  A render that throws, or a write that the
browser refuses, unmounts the component and leaves the storage as it was. -/
def rerender (accepts : Quota) (historySet : Bool) (s : AppState) : Page :=
  if renders s then
    if historySet then
      if accepts s.sessionStorage STORAGE_KEYS.HISTORY (JSON.stringify (.arr s.history)) then
        .live (commit s)
      else .crashed s.sessionStorage
    else .live s
  else .crashed s.sessionStorage

end Page

/-- Does the mount effect take the branch that starts a fresh window (line 93)? -/
def startsFresh (now : Int) (storage : Storage) : Bool :=
  match storage.getItem STORAGE_KEYS.SESSION_START with
  | none => true
  | some startRaw =>
    if startRaw = "" then true
    else
      match JS.Number startRaw with
      | none => true
      | some startMs => decide (startMs = 0 ∨ now - startMs ≥ FOUR_HOURS_MS)

/-- Does the mount effect call `setHistory` (lines 96, 102, 104)?  It does not when the
window is valid and no history text is stored. -/
def mountSetsHistory (now : Int) (storage : Storage) : Bool :=
  startsFresh now storage ||
    (match storage.getItem STORAGE_KEYS.HISTORY with
      | none => false
      | some text => decide (text ≠ ""))

namespace Page

/-- Loading the page at time `now` over the given storage, in a browser with the given
quota.  The first render shows the initial state.  A refused write of the session start ends
the effects of the first commit with the storage cleared; a refused write of the history,
or a render of the hydrated history that throws, unmounts the component as well. -/
def load (accepts : Quota) (now : Int) (storage : Storage) : Page :=
  let s0 := initialState storage
  if startsFresh now storage
      && !(accepts storage.clear STORAGE_KEYS.SESSION_START (JS.StringOf now)) then
    .crashed storage.clear
  else if accepts (mountEffect now s0).sessionStorage STORAGE_KEYS.HISTORY
      (JSON.stringify (.arr s0.history)) then
    rerender accepts (mountSetsHistory now storage) (persistEffect s0.history (mountEffect now s0))
  else .crashed (mountEffect now s0).sessionStorage

/-- One event on the tab.  Nothing reaches a component that is no longer mounted.  A refused
write in the timeout callback is an uncaught error of the timer: the storage has been
cleared, the state updates after it are not reached and the component stays as it is. -/
def react (accepts : Quota) : Page → Event → Page
  | .crashed st, _ => .crashed st
  | .live s, .selectFile f => rerender accepts false (handleFileChange f s)
  | .live s, .submit =>
    if submitDisabled s then .live s else rerender accepts false (handleSubmitStart s)
  | .live s, .settle file fetched read saltHex id tsNow =>
    if s.inFlight = 0 then .live s
    else
      match apiResult fetched, read with
      | some _, .loaded _ =>
        rerender accepts true (handleSubmitSettle file fetched read saltHex id tsNow s)
      | _, _ => rerender accepts false (handleSubmitSettle file fetched read saltHex id tsNow s)
  | .live s, .clear => if clearDisabled s then .live s else rerender accepts true (clearSession s)
  | .live s, .openDetail i => rerender accepts false (openDetail i s)
  | .live s, .closeDetail => rerender accepts false (closeDetail s)
  | .live s, .expire now =>
    if timerDue now s then
      if accepts s.sessionStorage.clear STORAGE_KEYS.SESSION_START (JS.StringOf now) then
        rerender accepts true (expiryCallback now s)
      else .live { s with sessionStorage := s.sessionStorage.clear, timer := none }
    else .live s

/-- A sequence of events on the tab. -/
def run (accepts : Quota) (p : Page) (events : List Event) : Page :=
  events.foldl (react accepts) p

/-- One history operation on the tab: a successful submission settles, or `clearSession` is
called. -/
def applyOp (accepts : Quota) : Page → HistoryOp → Page
  | .crashed st, _ => .crashed st
  | .live s, .add x =>
    rerender accepts true
      (handleSubmitSettle x.file (.response true (some x.apiRes)) (.loaded x.dataUrl) x.saltHex
        x.id x.tsNow s)
  | .live s, .clear => rerender accepts true (clearSession s)

/-- A sequence of history operations on the tab. -/
def applyOps (accepts : Quota) (p : Page) (ops : List HistoryOp) : Page :=
  ops.foldl (applyOp accepts) p

end Page

/-! ## Example sessions -/

namespace Example

/-- A response body with a prediction. -/
def body : JSON := .obj [("prediction", .str "No dementia")]

/-- Selecting `scan1.png`, submitting it and receiving a successful answer at time `t`. -/
def upload (id : String) (t : Int) : List Event :=
  [.selectFile (some ⟨"scan1.png"⟩), .submit,
   .settle ⟨"scan1.png"⟩ (.response true (some body)) (.loaded "data:image/png;base64,AAAA")
     "00112233445566778899aabbccddeeff" id t]

/-- A page loaded at time 1000 over an empty storage, with a file selected and submitted and
the request still in flight. -/
def submitting : AppState :=
  run (mount 1000 ⟨[]⟩) [.selectFile (some ⟨"scan1.png"⟩), .submit]

/-- A page loaded at time 1000 over an empty storage, with one study uploaded at 2000. -/
def freshUpload : AppState := run (mount 1000 ⟨[]⟩) (upload "u1" 2000)

/-- A page loaded at time 5000 inside the window that started at 1000, left alone until its
timeout fires, with one study uploaded a second after that. -/
def renewedUpload : AppState :=
  run (advanceTo 14401000 (mount 5000 ⟨[("session_start_ms", "1000")]⟩)) (upload "u2" 14402000)

/-- A page with three studies uploaded and the second entry of the history opened. -/
def threeStudies : AppState :=
  run (mount 1000 ⟨[]⟩) (upload "u1" 2000 ++ upload "u2" 3000 ++ upload "u3" 4000 ++
    [.openDetail 1])

/-- A storage inside a valid window whose history text is an array of values that are not
study records. -/
def oddHistory : Storage :=
  ⟨[("session_start_ms", "1000"), ("rx_history", "[\x7b\x7d,null,1]")]⟩

/-- A response body whose prediction is an object. -/
def objectBody : JSON := .obj [("prediction", .obj [("label", .str "x")])]

/-- A successful submission of `scan1.png` at time 2000 answered with `body`. -/
def plainSubmission : Submission :=
  ⟨⟨"scan1.png"⟩, body, "data:image/png;base64,AAAA", "00112233445566778899aabbccddeeff",
    "u1", 2000⟩

/-- A successful submission of `scan1.png` at time 2000 answered with `objectBody`. -/
def objectSubmission : Submission :=
  ⟨⟨"scan1.png"⟩, objectBody, "data:image/png;base64,AAAA",
    "00112233445566778899aabbccddeeff", "u1", 2000⟩

/-- Selecting `scan1.png`, submitting it and receiving `objectBody` at time 2000. -/
def objectUpload : List Event :=
  [.selectFile (some ⟨"scan1.png"⟩), .submit,
   .settle ⟨"scan1.png"⟩ (.response true (some objectBody))
     (.loaded "data:image/png;base64,AAAA") "00112233445566778899aabbccddeeff" "u1" 2000]

/-- A browser whose storage has no room for a history other than the empty one. -/
def noRoom : Quota := fun _ key value => decide (key ≠ "rx_history" ∨ value = "[]")

end Example



/-! ## Session storage laws -/

namespace Storage

theorem find_map_same (es : List (String × String)) (k v : String)
    (h : es.any (fun e => decide (e.1 = k)) = true) :
    ((es.map fun e => if e.1 = k then (k, v) else e).find? fun e => decide (e.1 = k))
      = some (k, v) := by
  induction es with
  | nil => simp at h
  | cons e es ih =>
    by_cases he : e.1 = k
    · simp [List.find?, he]
    · have h2 : es.any (fun e => decide (e.1 = k)) = true := by
        simpa [List.any_cons, he] using h
      simp [List.find?, he, ih h2]

theorem find_append_fresh (es : List (String × String)) (k v : String)
    (h : es.any (fun e => decide (e.1 = k)) = false) :
    ((es ++ [(k, v)]).find? fun e => decide (e.1 = k)) = some (k, v) := by
  induction es with
  | nil => simp
  | cons e es ih =>
    have h1 : ¬ e.1 = k := by
      intro he; simp [List.any_cons, he] at h
    have h2 : es.any (fun e => decide (e.1 = k)) = false := by
      simpa [List.any_cons, h1] using h
    simp [List.find?, h1, ih h2]

theorem getItem_setItem_same (st : Storage) (k v : String) :
    (st.setItem k v).getItem k = some v := by
  unfold setItem getItem
  by_cases h : st.entries.any (fun e => decide (e.1 = k)) = true
  · rw [if_pos h]; simp only [find_map_same st.entries k v h, Option.map_some']
  · rw [if_neg h]
    have h' : st.entries.any (fun e => decide (e.1 = k)) = false := Bool.eq_false_iff.mpr h
    simp only [find_append_fresh st.entries k v h', Option.map_some']

theorem find_map_other (es : List (String × String)) (k v k' : String) (hk : k' ≠ k) :
    ((es.map fun e => if e.1 = k then (k, v) else e).find? fun e => decide (e.1 = k')).map
        (fun e => e.2)
      = (es.find? fun e => decide (e.1 = k')).map fun e => e.2 := by
  induction es with
  | nil => rfl
  | cons e es ih =>
    rw [List.map_cons]
    by_cases he : e.1 = k
    · have h2 : ¬ e.1 = k' := by rw [he]; exact fun h => hk h.symm
      rw [if_pos he, List.find?_cons_of_neg, List.find?_cons_of_neg]
      · exact ih
      · simpa using h2
      · simpa using fun h : k = k' => hk h.symm
    · rw [if_neg he]
      by_cases he' : e.1 = k'
      · rw [List.find?_cons_of_pos, List.find?_cons_of_pos] <;> simpa using he'
      · rw [List.find?_cons_of_neg, List.find?_cons_of_neg]
        · exact ih
        · simpa using he'
        · simpa using he'

theorem find_append_other (es : List (String × String)) (k v k' : String) (hk : k' ≠ k) :
    ((es ++ [(k, v)]).find? fun e => decide (e.1 = k')) = es.find? fun e => decide (e.1 = k') := by
  induction es with
  | nil =>
    have h1 : ¬ k = k' := fun h => hk h.symm
    simp [List.find?, h1]
  | cons e es ih =>
    rw [List.cons_append]
    by_cases he' : e.1 = k'
    · rw [List.find?_cons_of_pos, List.find?_cons_of_pos] <;> simpa using he'
    · rw [List.find?_cons_of_neg, List.find?_cons_of_neg]
      · exact ih
      · simpa using he'
      · simpa using he'

theorem getItem_setItem_other (st : Storage) (k v k' : String) (hk : k' ≠ k) :
    (st.setItem k v).getItem k' = st.getItem k' := by
  unfold setItem getItem
  by_cases h : st.entries.any (fun e => decide (e.1 = k)) = true
  · rw [if_pos h]; exact find_map_other st.entries k v k' hk
  · rw [if_neg h]; simp only [find_append_other st.entries k v k' hk]

theorem find_filter_same (es : List (String × String)) (k : String) :
    ((es.filter fun e => decide (e.1 ≠ k)).find? fun e => decide (e.1 = k)) = none := by
  induction es with
  | nil => rfl
  | cons e es ih =>
    by_cases he : e.1 = k
    · rw [List.filter_cons_of_neg]
      · exact ih
      · simpa using he
    · rw [List.filter_cons_of_pos, List.find?_cons_of_neg]
      · exact ih
      · simpa using he
      · simpa using he

theorem find_filter_other (es : List (String × String)) (k k' : String) (hk : k' ≠ k) :
    ((es.filter fun e => decide (e.1 ≠ k)).find? fun e => decide (e.1 = k'))
      = es.find? fun e => decide (e.1 = k') := by
  induction es with
  | nil => rfl
  | cons e es ih =>
    by_cases he : e.1 = k
    · have h2 : ¬ e.1 = k' := by rw [he]; exact fun h => hk h.symm
      rw [List.filter_cons_of_neg, List.find?_cons_of_neg]
      · exact ih
      · simpa using h2
      · simpa using he
    · rw [List.filter_cons_of_pos]
      · by_cases he' : e.1 = k'
        · rw [List.find?_cons_of_pos, List.find?_cons_of_pos] <;> simpa using he'
        · rw [List.find?_cons_of_neg, List.find?_cons_of_neg]
          · exact ih
          · simpa using he'
          · simpa using he'
      · simpa using he

theorem getItem_removeItem_same (st : Storage) (k : String) :
    (st.removeItem k).getItem k = none := by
  unfold removeItem getItem
  rw [find_filter_same]; rfl

theorem getItem_removeItem_other (st : Storage) (k k' : String) (hk : k' ≠ k) :
    (st.removeItem k).getItem k' = st.getItem k' := by
  unfold removeItem getItem
  rw [find_filter_other st.entries k k' hk]

theorem getItem_clear (st : Storage) (k : String) : (st.clear).getItem k = none := rfl

end Storage

/-! ## The mount effect -/

open STORAGE_KEYS

theorem mountEffect_fresh (now : Int) (s : AppState)
    (h : s.sessionStorage.getItem SESSION_START = none ∨
      ∃ startRaw startMs, s.sessionStorage.getItem SESSION_START = some startRaw ∧
        JS.Number startRaw = some startMs ∧ now - startMs ≥ FOUR_HOURS_MS) :
    mountEffect now s = freshWindow now s := by
  unfold mountEffect
  rcases h with h | ⟨startRaw, startMs, h1, h2, h3⟩
  · rw [h]
  · rw [h1]
    simp only
    split_ifs with he
    · rfl
    · rw [h2]
      simp only
      rw [if_pos (Or.inr h3)]

theorem mountEffect_valid (now : Int) (s : AppState) (startRaw : String) (startMs : Int)
    (hraw : s.sessionStorage.getItem SESSION_START = some startRaw)
    (hnum : JS.Number startRaw = some startMs) (hnz : startMs ≠ 0)
    (hlt : now - startMs < FOUR_HOURS_MS) :
    mountEffect now s =
      { s with
        history := hydrate (s.sessionStorage.getItem HISTORY) s.history
        timer := some ⟨now, max 0 (FOUR_HOURS_MS - (now - startMs))⟩ } := by
  have hne : startRaw ≠ "" := by
    intro he
    rw [he] at hnum
    have h0 : JS.Number "" = some 0 := by decide
    rw [h0] at hnum
    exact hnz (Option.some.inj hnum).symm
  unfold mountEffect
  rw [hraw]
  simp only
  rw [if_neg hne, hnum]
  simp only
  rw [if_neg]
  intro h
  rcases h with h | h
  · exact hnz h
  · omega

theorem history_ne_session : HISTORY ≠ SESSION_START := by decide

/-- C1: when `session_start_ms` is absent, or the stored start is at least four hours before
the load time, the mount effect empties the storage down to the single entry
`session_start_ms = String(now)` and sets the history to the empty list; after the commit the
history is empty, `session_start_ms` holds `String(now)` and the only other entry is the
freshly written `rx_history = "[]"`. -/
theorem C1_fresh_window_on_absent_or_expired_start (storage : Storage) (now : Int)
    (h : storage.getItem SESSION_START = none ∨
      ∃ startRaw startMs, storage.getItem SESSION_START = some startRaw ∧
        JS.Number startRaw = some startMs ∧ now - startMs ≥ FOUR_HOURS_MS) :
    (mountEffect now (initialState storage)).history = [] ∧
    (mountEffect now (initialState storage)).sessionStorage.entries
      = [(SESSION_START, JS.StringOf now)] ∧
    (mount now storage).history = [] ∧
    (mount now storage).sessionStorage.getItem SESSION_START = some (JS.StringOf now) ∧
    (mount now storage).sessionStorage.entries
      = [(SESSION_START, JS.StringOf now), (HISTORY, "[]")] := by
  have hm : mountEffect now (initialState storage) = freshWindow now (initialState storage) :=
    mountEffect_fresh now (initialState storage) h
  unfold mount
  simp only [hm]
  refine ⟨rfl, rfl, rfl, rfl, rfl⟩

/-- C1 at a concrete load: a window that started at 1000 is reloaded exactly four hours
later, over a storage that also holds a history and a foreign key. -/
theorem C1_fresh_window_witness :
    (mountEffect 14401000 (initialState ⟨[("session_start_ms", "1000"), ("rx_history", "[1]"),
        ("other", "x")]⟩)).history = [] ∧
    (mountEffect 14401000 (initialState ⟨[("session_start_ms", "1000"), ("rx_history", "[1]"),
        ("other", "x")]⟩)).sessionStorage.entries = [(SESSION_START, JS.StringOf 14401000)] ∧
    (mount 14401000 ⟨[("session_start_ms", "1000"), ("rx_history", "[1]"),
        ("other", "x")]⟩).history = [] ∧
    (mount 14401000 ⟨[("session_start_ms", "1000"), ("rx_history", "[1]"),
        ("other", "x")]⟩).sessionStorage.getItem SESSION_START = some (JS.StringOf 14401000) ∧
    (mount 14401000 ⟨[("session_start_ms", "1000"), ("rx_history", "[1]"),
        ("other", "x")]⟩).sessionStorage.entries
      = [(SESSION_START, JS.StringOf 14401000), (HISTORY, "[]")] :=
  C1_fresh_window_on_absent_or_expired_start
    ⟨[("session_start_ms", "1000"), ("rx_history", "[1]"), ("other", "x")]⟩ 14401000
    (Or.inr ⟨"1000", 1000, by decide, by decide, by decide⟩)

/-- C10: over a stored non-zero start less than four hours before the load time, loading
leaves `session_start_ms` as it was and sets one timeout whose delay
`max 0 (FOUR_HOURS_MS - (now - startMs))` is positive and ends exactly at
`startMs + FOUR_HOURS_MS`; the timeout fires once due, and its callback run at a time `t`
leaves `session_start_ms = String(t)` as the only entry of the storage and resets the
history, the selected record and the result. -/
theorem C10_valid_window_sets_one_timeout (storage : Storage) (now : Int) (startRaw : String)
    (startMs : Int) (hraw : storage.getItem SESSION_START = some startRaw)
    (hnum : JS.Number startRaw = some startMs) (hnz : startMs ≠ 0)
    (hlt : now - startMs < FOUR_HOURS_MS) :
    (mountEffect now (initialState storage)).sessionStorage = storage ∧
    (mount now storage).sessionStorage.getItem SESSION_START = some startRaw ∧
    (∃ d : Int, (mount now storage).timer = some ⟨now, d⟩ ∧
      d = max 0 (FOUR_HOURS_MS - (now - startMs)) ∧ 0 < d ∧
      now + d = startMs + FOUR_HOURS_MS ∧
      ∀ t : Int, now + d ≤ t →
        step (mount now storage) (.expire t) = commit (expiryCallback t (mount now storage))) ∧
    ∀ (t : Int) (s : AppState),
      (expiryCallback t s).sessionStorage.entries = [(SESSION_START, JS.StringOf t)] ∧
      (expiryCallback t s).history = [] ∧ (expiryCallback t s).selected = none ∧
      (expiryCallback t s).result = .str "" ∧ (expiryCallback t s).timer = none ∧
      (commit (expiryCallback t s)).history = [] ∧
      (commit (expiryCallback t s)).sessionStorage.getItem SESSION_START
        = some (JS.StringOf t) := by
  have hm := mountEffect_valid now (initialState storage) startRaw startMs hraw hnum hnz hlt
  have hd : max 0 (FOUR_HOURS_MS - (now - startMs)) = FOUR_HOURS_MS - (now - startMs) := by
    apply max_eq_right; omega
  have htimer : (mount now storage).timer
      = some ⟨now, max 0 (FOUR_HOURS_MS - (now - startMs))⟩ := by
    unfold mount; simp only [hm]; rfl
  refine ⟨by rw [hm]; rfl, ?_, ⟨_, htimer, rfl, ?_, ?_, ?_⟩, ?_⟩
  · unfold mount commit persistEffect
    simp only [hm]
    rw [Storage.getItem_setItem_other _ _ _ _ history_ne_session.symm,
      Storage.getItem_setItem_other _ _ _ _ history_ne_session.symm]
    exact hraw
  · rw [hd]; omega
  · rw [hd]; omega
  · intro t ht
    have hdue : timerDue t (mount now storage) = true := by
      unfold timerDue; rw [htimer]; simpa using ht
    simp only [step, hdue, if_true]
  · intro t s
    refine ⟨rfl, rfl, rfl, rfl, rfl, rfl, ?_⟩
    unfold commit persistEffect
    rw [Storage.getItem_setItem_other _ _ _ _ history_ne_session.symm]
    rfl

/-- C10 at a concrete load: a window that started at 1000 is reloaded at 5000. -/
theorem C10_valid_window_witness :
    (mountEffect 5000 (initialState ⟨[("session_start_ms", "1000")]⟩)).sessionStorage
      = ⟨[("session_start_ms", "1000")]⟩ ∧
    (mount 5000 ⟨[("session_start_ms", "1000")]⟩).sessionStorage.getItem SESSION_START
      = some "1000" ∧
    (∃ d : Int, (mount 5000 ⟨[("session_start_ms", "1000")]⟩).timer = some ⟨5000, d⟩ ∧
      d = max 0 (FOUR_HOURS_MS - (5000 - 1000)) ∧ 0 < d ∧
      5000 + d = 1000 + FOUR_HOURS_MS ∧
      ∀ t : Int, 5000 + d ≤ t →
        step (mount 5000 ⟨[("session_start_ms", "1000")]⟩) (.expire t)
          = commit (expiryCallback t (mount 5000 ⟨[("session_start_ms", "1000")]⟩))) ∧
    ∀ (t : Int) (s : AppState),
      (expiryCallback t s).sessionStorage.entries = [(SESSION_START, JS.StringOf t)] ∧
      (expiryCallback t s).history = [] ∧ (expiryCallback t s).selected = none ∧
      (expiryCallback t s).result = .str "" ∧ (expiryCallback t s).timer = none ∧
      (commit (expiryCallback t s)).history = [] ∧
      (commit (expiryCallback t s)).sessionStorage.getItem SESSION_START
        = some (JS.StringOf t) :=
  C10_valid_window_sets_one_timeout ⟨[("session_start_ms", "1000")]⟩ 5000 "1000" 1000
    (by decide) (by decide) (by decide) (by decide)

/-! ## Submissions -/

theorem settle_failure (file : File) (fetched : FetchOutcome) (read : ReadOutcome)
    (saltHex id : String) (tsNow : Int) (s : AppState)
    (h : apiResult fetched = none ∨ read = .rejected) :
    handleSubmitSettle file fetched read saltHex id tsNow s
      = { s with result := .str SERVER_ERROR, loading := false, inFlight := s.inFlight - 1 } := by
  unfold handleSubmitSettle
  rcases h with h | h
  · rw [h]
  · rw [h]
    cases apiResult fetched <;> rfl

theorem apiResult_failure (fetched : FetchOutcome)
    (h : fetched = .rejected ∨ (∃ json, fetched = .response false json) ∨
      fetched = .response true none) : apiResult fetched = none := by
  rcases h with h | ⟨json, h⟩ | h <;> rw [h] <;> rfl

theorem step_settle_failure (file : File) (fetched : FetchOutcome) (read : ReadOutcome)
    (saltHex id : String) (tsNow : Int) (s : AppState)
    (h : apiResult fetched = none ∨ read = .rejected) :
    step s (.settle file fetched read saltHex id tsNow)
      = if s.inFlight = 0 then s else handleSubmitSettle file fetched read saltHex id tsNow s := by
  simp only [step]
  split_ifs with h0
  · rfl
  · rcases h with h | h
    · rw [h]
    · cases hapi : apiResult fetched
      · rfl
      · rw [h]

/-- C6: when the fetch rejects, the response is not ok, the response body does not parse, or
the file read rejects, a submission started with a file selected ends with the fixed error
message as result, the history it started from, `loading = false` and the storage
untouched, and the settling is followed by no write of the history. -/
theorem C6_failed_submission_keeps_history (file : File) (fetched : FetchOutcome)
    (read : ReadOutcome) (saltHex id : String) (tsNow : Int) (s : AppState)
    (hfile : s.file = some file)
    (h : fetched = .rejected ∨ (∃ json, fetched = .response false json) ∨
      fetched = .response true none ∨ read = .rejected) :
    (handleSubmitStart s).loading = true ∧
    (handleSubmitSettle file fetched read saltHex id tsNow (handleSubmitStart s)).result
      = .str "Error al conectar con el servidor" ∧
    (handleSubmitSettle file fetched read saltHex id tsNow (handleSubmitStart s)).history
      = s.history ∧
    (handleSubmitSettle file fetched read saltHex id tsNow (handleSubmitStart s)).loading
      = false ∧
    (handleSubmitSettle file fetched read saltHex id tsNow (handleSubmitStart s)).sessionStorage
      = s.sessionStorage ∧
    step (handleSubmitStart s) (.settle file fetched read saltHex id tsNow)
      = handleSubmitSettle file fetched read saltHex id tsNow (handleSubmitStart s) := by
  have hfl : (handleSubmitStart s).inFlight ≠ 0 := by
    unfold handleSubmitStart; rw [hfile]; simp
  have hf : apiResult fetched = none ∨ read = .rejected := by
    rcases h with h | h | h | h
    · exact Or.inl (apiResult_failure fetched (Or.inl h))
    · exact Or.inl (apiResult_failure fetched (Or.inr (Or.inl h)))
    · exact Or.inl (apiResult_failure fetched (Or.inr (Or.inr h)))
    · exact Or.inr h
  have hs : handleSubmitStart s
      = { s with loading := true, result := .str "", inFlight := s.inFlight + 1 } := by
    unfold handleSubmitStart; rw [hfile]
  have hstep := step_settle_failure file fetched read saltHex id tsNow (handleSubmitStart s) hf
  rw [if_neg hfl] at hstep
  rw [hstep, settle_failure file fetched read saltHex id tsNow _ hf, hs]
  exact ⟨rfl, rfl, rfl, rfl, rfl, rfl⟩

/-- C6 at a concrete submission: the endpoint answers with a status that is not ok. -/
theorem C6_failed_submission_witness :
    (handleSubmitStart (handleFileChange (some ⟨"scan1.png"⟩) (mount 1000 ⟨[]⟩))).loading
      = true ∧
    (handleSubmitSettle ⟨"scan1.png"⟩ (.response false none) (.loaded "data:") "00" "u1" 2000
      (handleSubmitStart (handleFileChange (some ⟨"scan1.png"⟩) (mount 1000 ⟨[]⟩)))).result
      = .str "Error al conectar con el servidor" ∧
    (handleSubmitSettle ⟨"scan1.png"⟩ (.response false none) (.loaded "data:") "00" "u1" 2000
      (handleSubmitStart (handleFileChange (some ⟨"scan1.png"⟩) (mount 1000 ⟨[]⟩)))).history
      = (handleFileChange (some ⟨"scan1.png"⟩) (mount 1000 ⟨[]⟩)).history ∧
    (handleSubmitSettle ⟨"scan1.png"⟩ (.response false none) (.loaded "data:") "00" "u1" 2000
      (handleSubmitStart (handleFileChange (some ⟨"scan1.png"⟩) (mount 1000 ⟨[]⟩)))).loading
      = false ∧
    (handleSubmitSettle ⟨"scan1.png"⟩ (.response false none) (.loaded "data:") "00" "u1" 2000
      (handleSubmitStart (handleFileChange (some ⟨"scan1.png"⟩)
        (mount 1000 ⟨[]⟩)))).sessionStorage
      = (handleFileChange (some ⟨"scan1.png"⟩) (mount 1000 ⟨[]⟩)).sessionStorage ∧
    step (handleSubmitStart (handleFileChange (some ⟨"scan1.png"⟩) (mount 1000 ⟨[]⟩)))
        (.settle ⟨"scan1.png"⟩ (.response false none) (.loaded "data:") "00" "u1" 2000)
      = handleSubmitSettle ⟨"scan1.png"⟩ (.response false none) (.loaded "data:") "00" "u1" 2000
        (handleSubmitStart (handleFileChange (some ⟨"scan1.png"⟩) (mount 1000 ⟨[]⟩))) :=
  C6_failed_submission_keeps_history ⟨"scan1.png"⟩ (.response false none) (.loaded "data:")
    "00" "u1" 2000 (handleFileChange (some ⟨"scan1.png"⟩) (mount 1000 ⟨[]⟩)) rfl
    (Or.inr (Or.inl ⟨none, rfl⟩))

theorem settle_success (file : File) (apiRes : JSON) (dataUrl saltHex id : String)
    (tsNow : Int) (s : AppState) :
    handleSubmitSettle file (.response true (some apiRes)) (.loaded dataUrl) saltHex id tsNow s
      = { s with
          result := diagnosisOf apiRes
          history := newItemOf id tsNow (diagnosisOf apiRes) dataUrl
            (displayIdOf saltHex file.name tsNow) :: s.history
          loading := false
          inFlight := s.inFlight - 1 } := rfl

theorem applyOp_add_history (s : AppState) (x : Submission) :
    (applyOp s (.add x)).history = x.record :: s.history := rfl

theorem applyOps_add_history (xs : List Submission) (s : AppState) :
    (applyOps s (xs.map .add)).history = (xs.map Submission.record).reverse ++ s.history := by
  induction xs generalizing s with
  | nil => rfl
  | cons x xs ih =>
    simp only [applyOps, List.map_cons, List.foldl_cons] at ih ⊢
    rw [ih, applyOp_add_history]
    simp

/-- C4: folding the updater `prev => [newItem, ...prev]` over records `r1, ..., rn` from the
empty history gives `[rn, ..., r1]`; the updater puts the record in front of the history it is
given and so leaves the order of the older records as it was; and any run of successful
submissions leaves the history holding their records newest first in front of what was there
before. -/
theorem C4_history_is_newest_first (rs : List JSON) (r : JSON) (h : List JSON)
    (xs : List Submission) (s : AppState) :
    rs.foldl (fun prev newItem => prependItem newItem prev) [] = rs.reverse ∧
    prependItem r h = r :: h ∧
    (prependItem r h).tail = h ∧
    (applyOps s (xs.map .add)).history = (xs.map Submission.record).reverse ++ s.history := by
  refine ⟨?_, rfl, rfl, applyOps_add_history xs s⟩
  have hgen : ∀ (acc : List JSON),
      rs.foldl (fun prev newItem => prependItem newItem prev) acc = rs.reverse ++ acc := by
    induction rs with
    | nil => intro acc; rfl
    | cons a rs ih =>
      intro acc
      rw [List.foldl_cons, ih]
      simp [prependItem]
  simpa using hgen []

/-! ## Clearing, expiry and hydration on concrete sessions -/

theorem commit_clearSession_history_key (s : AppState) :
    (commit (clearSession s)).sessionStorage.getItem HISTORY = some "[]" := by
  unfold commit persistEffect clearSession
  exact Storage.getItem_setItem_same _ _ _

/-- C7: with three studies in the history and one of them opened, pressing the clear button
empties the history, closes the detail view and leaves `session_start_ms` as it was; the
handler removes `rx_history`, but the render that follows writes it again, so that after the
action the key is present and holds the empty list. -/
theorem C7_clear_leaves_history_key_holding_empty_list :
    Example.threeStudies.history.length = 3 ∧
    Example.threeStudies.selected.isSome = true ∧
    clearDisabled Example.threeStudies = false ∧
    (step Example.threeStudies .clear).history = [] ∧
    (step Example.threeStudies .clear).selected = none ∧
    (step Example.threeStudies .clear).sessionStorage.getItem SESSION_START
      = Example.threeStudies.sessionStorage.getItem SESSION_START ∧
    (clearSession Example.threeStudies).sessionStorage.getItem HISTORY = none ∧
    (step Example.threeStudies .clear).sessionStorage.getItem HISTORY = some "[]" := by
  refine ⟨by decide, by decide, by decide, rfl, rfl, by decide, by decide, by decide⟩

/-- C2: a window that was started fresh at load, or by the expiry callback, has no timeout
behind it.  A study uploaded into a page loaded at 1000 over an empty storage is still in the
history four hours after the start that is persisted, and no expiry can fire; the same holds
for a study uploaded after the timeout of an older window has fired and started a new one. -/
theorem C2_records_outlive_window_without_timeout :
    Example.freshUpload.sessionStorage.getItem SESSION_START = some "1000" ∧
    JS.Number "1000" = some 1000 ∧
    (1000 : Int) + FOUR_HOURS_MS ≤ 14401000 ∧
    Example.freshUpload.timer = none ∧
    (∀ t : Int, step Example.freshUpload (.expire t) = Example.freshUpload) ∧
    (advanceTo 14401000 Example.freshUpload).history.length = 1 ∧
    Example.renewedUpload.sessionStorage.getItem SESSION_START = some "14401000" ∧
    JS.Number "14401000" = some 14401000 ∧
    (14401000 : Int) + FOUR_HOURS_MS ≤ 28801000 ∧
    Example.renewedUpload.timer = none ∧
    (∀ t : Int, step Example.renewedUpload (.expire t) = Example.renewedUpload) ∧
    (advanceTo 28801000 Example.renewedUpload).history.length = 1 := by
  refine ⟨by decide, by decide, by decide, rfl, fun t => rfl, by decide, by decide, by decide,
    by decide, rfl, fun t => rfl, by decide⟩

theorem hydrate_malformed (saved : String) (current : List JSON) (hcur : current = [])
    (hbad : JSON.parse saved = none ∨
      ∃ v, JSON.parse saved = some v ∧ ∀ xs, v ≠ .arr xs) :
    hydrate (some saved) current = [] := by
  unfold hydrate
  simp only
  split_ifs with he
  · exact hcur
  · rcases hbad with h | ⟨v, h, hv⟩
    · rw [h]
    · rw [h]
      cases v with
      | arr xs => exact absurd rfl (hv xs)
      | _ => rfl

theorem hydrate_array (saved : String) (current xs : List JSON)
    (h : JSON.parse saved = some (.arr xs)) : hydrate (some saved) current = xs := by
  have hne : saved ≠ "" := by
    intro he
    rw [he] at h
    have : JSON.parse "" = none := by rfl
    rw [this] at h
    cases h
  unfold hydrate
  simp only
  rw [if_neg hne, h]

theorem mountEffect_cases (now : Int) (s : AppState) :
    mountEffect now s = freshWindow now s ∨
    ∃ d : Int, mountEffect now s =
      { s with
        history := hydrate (s.sessionStorage.getItem HISTORY) s.history
        timer := some ⟨now, d⟩ } := by
  unfold mountEffect
  generalize s.sessionStorage.getItem SESSION_START = g
  cases g with
  | none => exact Or.inl rfl
  | some startRaw =>
    simp only
    by_cases he : startRaw = ""
    · rw [if_pos he]; exact Or.inl rfl
    · rw [if_neg he]
      cases JS.Number startRaw with
      | none => exact Or.inl rfl
      | some startMs =>
        simp only
        by_cases h2 : startMs = 0 ∨ now - startMs ≥ FOUR_HOURS_MS
        · rw [if_pos h2]; exact Or.inl rfl
        · rw [if_neg h2]; exact Or.inr ⟨_, rfl⟩

theorem mountEffect_history_cases (now : Int) (storage : Storage) :
    (mountEffect now (initialState storage)).history = [] ∨
    (mountEffect now (initialState storage)).history
      = hydrate (storage.getItem HISTORY) [] := by
  rcases mountEffect_cases now (initialState storage) with h | ⟨d, h⟩
  · rw [h]; exact Or.inl rfl
  · rw [h]; exact Or.inr rfl

theorem mount_history (now : Int) (storage : Storage) :
    (mount now storage).history = (mountEffect now (initialState storage)).history := rfl

/-! ## At most one request in flight -/

theorem settle_loading_inFlight (file : File) (fetched : FetchOutcome) (read : ReadOutcome)
    (saltHex id : String) (tsNow : Int) (s : AppState) :
    (handleSubmitSettle file fetched read saltHex id tsNow s).loading = false ∧
    (handleSubmitSettle file fetched read saltHex id tsNow s).inFlight = s.inFlight - 1 ∧
    (handleSubmitSettle file fetched read saltHex id tsNow s).history.length
      ≤ s.history.length + 1 := by
  unfold handleSubmitSettle
  cases apiResult fetched with
  | none => exact ⟨rfl, rfl, Nat.le_succ _⟩
  | some apiRes =>
    cases read with
    | rejected => exact ⟨rfl, rfl, Nat.le_succ _⟩
    | loaded dataUrl => exact ⟨rfl, rfl, Nat.le_refl _⟩

theorem step_settle_fields (file : File) (fetched : FetchOutcome) (read : ReadOutcome)
    (saltHex id : String) (tsNow : Int) (s : AppState) (h : s.inFlight ≠ 0) :
    (step s (.settle file fetched read saltHex id tsNow)).loading = false ∧
    (step s (.settle file fetched read saltHex id tsNow)).inFlight = s.inFlight - 1 ∧
    (step s (.settle file fetched read saltHex id tsNow)).history.length
      ≤ s.history.length + 1 := by
  have hs := settle_loading_inFlight file fetched read saltHex id tsNow s
  simp only [step]
  rw [if_neg h]
  cases apiResult fetched with
  | none => exact hs
  | some apiRes =>
    cases read with
    | rejected => exact hs
    | loaded dataUrl => exact hs

theorem step_keeps_one_request (s : AppState) (e : Event)
    (h : (s.loading = true ∧ s.inFlight = 1) ∨ (s.loading = false ∧ s.inFlight = 0)) :
    ((step s e).loading = true ∧ (step s e).inFlight = 1) ∨
    ((step s e).loading = false ∧ (step s e).inFlight = 0) := by
  cases e with
  | selectFile f => cases f <;> exact h
  | submit =>
    simp only [step]
    by_cases hd : submitDisabled s = true
    · rw [if_pos hd]; exact h
    · rw [if_neg hd]
      have hl : s.loading = false := by
        cases hl : s.loading
        · rfl
        · exact absurd (by simp [submitDisabled, hl]) hd
      have h0 : s.inFlight = 0 := by
        rcases h with h | h
        · rw [hl] at h; exact absurd h.1 (by decide)
        · exact h.2
      unfold handleSubmitStart
      cases hf : s.file with
      | none => exact Or.inr ⟨hl, h0⟩
      | some f => exact Or.inl ⟨rfl, by simp [h0]⟩
  | settle file fetched read saltHex id tsNow =>
    by_cases h0 : s.inFlight = 0
    · have : step s (.settle file fetched read saltHex id tsNow) = s := by
        simp only [step]; rw [if_pos h0]
      rw [this]; exact h
    · have hf := step_settle_fields file fetched read saltHex id tsNow s h0
      rcases h with h | h
      · exact Or.inr ⟨hf.1, by rw [hf.2.1, h.2]⟩
      · exact absurd h.2 h0
  | clear =>
    simp only [step]
    split_ifs
    · exact h
    · exact h
  | openDetail i =>
    simp only [step, openDetail]
    cases s.history.get? i <;> exact h
  | closeDetail => exact h
  | expire now =>
    simp only [step]
    split_ifs
    · exact h
    · exact h

theorem mount_idle (now : Int) (storage : Storage) :
    (mount now storage).loading = false ∧ (mount now storage).inFlight = 0 := by
  show (mountEffect now (initialState storage)).loading = false ∧
    (mountEffect now (initialState storage)).inFlight = 0
  rcases mountEffect_cases now (initialState storage) with h | ⟨d, h⟩ <;> rw [h] <;>
    exact ⟨rfl, rfl⟩

theorem run_keeps_one_request (events : List Event) (s : AppState)
    (h : (s.loading = true ∧ s.inFlight = 1) ∨ (s.loading = false ∧ s.inFlight = 0)) :
    ((run s events).loading = true ∧ (run s events).inFlight = 1) ∨
    ((run s events).loading = false ∧ (run s events).inFlight = 0) := by
  induction events generalizing s with
  | nil => exact h
  | cons e es ih => exact ih (step s e) (step_keeps_one_request s e h)

/-- C9 as stated fails: `handleSubmit` itself looks only at the file, so invoking it while a
submission is in flight starts a second request. -/
theorem C9_handleSubmit_invoked_while_loading_starts_request :
    Example.submitting.loading = true ∧
    Example.submitting.file.isSome = true ∧
    Example.submitting.inFlight = 1 ∧
    (handleSubmitStart Example.submitting).inFlight = 2 := by
  refine ⟨by decide, by decide, by decide, by decide⟩

/-- C9, amended: in every state reached from a load through the events of the page in which
`loading` is true, the submit button is disabled and a click on it changes nothing, so it
starts no second request; exactly one request is in flight, and when it settles no request is
left, `loading` is false and the history has grown by at most one record. -/
theorem C9_submit_button_is_disabled_while_loading (now : Int) (storage : Storage)
    (events : List Event) (h : (run (mount now storage) events).loading = true) :
    submitDisabled (run (mount now storage) events) = true ∧
    step (run (mount now storage) events) .submit = run (mount now storage) events ∧
    (run (mount now storage) events).inFlight = 1 ∧
    ∀ (file : File) (fetched : FetchOutcome) (read : ReadOutcome) (saltHex id : String)
      (tsNow : Int),
      (step (run (mount now storage) events)
        (.settle file fetched read saltHex id tsNow)).inFlight = 0 ∧
      (step (run (mount now storage) events)
        (.settle file fetched read saltHex id tsNow)).loading = false ∧
      (step (run (mount now storage) events)
        (.settle file fetched read saltHex id tsNow)).history.length
        ≤ (run (mount now storage) events).history.length + 1 := by
  have hinv := run_keeps_one_request events (mount now storage) (Or.inr (mount_idle now storage))
  have h1 : (run (mount now storage) events).inFlight = 1 := by
    rcases hinv with hi | hi
    · exact hi.2
    · rw [h] at hi; exact absurd hi.1 (by decide)
  have hd : submitDisabled (run (mount now storage) events) = true := by
    simp [submitDisabled, h]
  refine ⟨hd, ?_, h1, ?_⟩
  · simp only [step]; rw [if_pos hd]
  · intro file fetched read saltHex id tsNow
    have hf := step_settle_fields file fetched read saltHex id tsNow
      (run (mount now storage) events) (by rw [h1]; decide)
    exact ⟨by rw [hf.2.1, h1], hf.1, hf.2.2⟩

/-- C9 amended, at the example session with a request in flight. -/
theorem C9_submit_button_witness :
    submitDisabled (run (mount 1000 ⟨[]⟩) [.selectFile (some ⟨"scan1.png"⟩), .submit]) = true ∧
    step (run (mount 1000 ⟨[]⟩) [.selectFile (some ⟨"scan1.png"⟩), .submit]) .submit
      = run (mount 1000 ⟨[]⟩) [.selectFile (some ⟨"scan1.png"⟩), .submit] ∧
    (run (mount 1000 ⟨[]⟩) [.selectFile (some ⟨"scan1.png"⟩), .submit]).inFlight = 1 :=
  have h := C9_submit_button_is_disabled_while_loading 1000 ⟨[]⟩
    [.selectFile (some ⟨"scan1.png"⟩), .submit] (by decide)
  ⟨h.1, h.2.1, h.2.2.1⟩



/-! ## `JSON.parse` reads back what `JSON.stringify` writes -/

namespace JSON

theorem toNat_ofNat (n : Nat) (h : n.isValidChar) : (Char.ofNat n).toNat = n := by
  rw [Char.ofNat, dif_pos h]
  rfl

theorem parseChars_cons (c : Char) (rest : List Char) :
    parseChars (c :: rest) =
      if c = quote then some ([], rest)
      else if c = backslash then
        match rest with
        | [] => none
        | e :: rest1 =>
          if e = 'u' then
            match rest1 with
            | a :: b :: c1 :: d :: rest2 =>
              match hex4 a b c1 d with
              | some u => (parseChars rest2).map fun p => (u :: p.1, p.2)
              | none => none
            | _ => none
          else
            match unescape e with
            | some u => (parseChars rest1).map fun p => (u :: p.1, p.2)
            | none => none
      else if c.toNat < 32 then none
      else (parseChars rest).map fun p => (JSString.ofChar c ++ p.1, p.2) := by
  cases rest with
  | nil => rfl
  | cons e r1 =>
    cases r1 with
    | nil => rfl
    | cons a r2 =>
      cases r2 with
      | nil => rfl
      | cons b r3 =>
        cases r3 with
        | nil => rfl
        | cons c1 r4 =>
          cases r4 with
          | nil => rfl
          | cons d r5 => rfl

theorem parseChars_short_escape (e : Char) (u : Nat) (tail : List Char) (hu : e ≠ 'u')
    (he : unescape e = some u) :
    parseChars (backslash :: e :: tail) = (parseChars tail).map fun p => (u :: p.1, p.2) := by
  rw [parseChars_cons, if_neg (by decide), if_pos rfl]
  simp only
  rw [if_neg hu, he]

theorem hexVal_hexDigit (d : Nat) (h : d < 16) : hexVal (hexDigit d) = some d := by
  interval_cases d <;> decide

theorem parseChars_hexEscape (u : Nat) (h : u < 65536) (tail : List Char) :
    parseChars (hexEscape u ++ tail) = (parseChars tail).map fun p => (u :: p.1, p.2) := by
  have hx : hex4 (hexDigit (u / 4096 % 16)) (hexDigit (u / 256 % 16)) (hexDigit (u / 16 % 16))
      (hexDigit (u % 16)) = some u := by
    unfold hex4
    rw [hexVal_hexDigit _ (Nat.mod_lt _ (by decide)), hexVal_hexDigit _ (Nat.mod_lt _ (by decide)),
      hexVal_hexDigit _ (Nat.mod_lt _ (by decide)), hexVal_hexDigit _ (Nat.mod_lt _ (by decide))]
    simp only [Option.some.injEq]
    omega
  unfold hexEscape
  rw [List.cons_append, parseChars_cons, if_neg (by decide), if_pos rfl]
  simp only [List.cons_append, List.nil_append, if_true, hx]

/-- A character of the basic plane is read back as its one code unit. -/
theorem parseChars_escapeChar (c : Char) (h : c.toNat < 65536) (tail : List Char) :
    parseChars (escapeChar c ++ tail)
      = (parseChars tail).map fun p => (c.toNat :: p.1, p.2) := by
  unfold escapeChar
  by_cases hq : c = quote
  · rw [if_pos hq, hq]; exact parseChars_short_escape quote _ tail (by decide) (by decide)
  rw [if_neg hq]
  by_cases hb : c = backslash
  · rw [if_pos hb, hb]; exact parseChars_short_escape backslash _ tail (by decide) (by decide)
  rw [if_neg hb]
  by_cases h8 : c.toNat = 8
  · rw [if_pos h8, h8]; exact parseChars_short_escape 'b' _ tail (by decide) (by decide)
  rw [if_neg h8]
  by_cases h9 : c.toNat = 9
  · rw [if_pos h9, h9]; exact parseChars_short_escape 't' _ tail (by decide) (by decide)
  rw [if_neg h9]
  by_cases h10 : c.toNat = 10
  · rw [if_pos h10, h10]; exact parseChars_short_escape 'n' _ tail (by decide) (by decide)
  rw [if_neg h10]
  by_cases h12 : c.toNat = 12
  · rw [if_pos h12, h12]; exact parseChars_short_escape 'f' _ tail (by decide) (by decide)
  rw [if_neg h12]
  by_cases h13 : c.toNat = 13
  · rw [if_pos h13, h13]; exact parseChars_short_escape 'r' _ tail (by decide) (by decide)
  rw [if_neg h13]
  by_cases h32 : c.toNat < 32
  · rw [if_pos h32]; exact parseChars_hexEscape _ h tail
  · rw [if_neg h32]
    show parseChars (c :: tail) = _
    rw [parseChars_cons, if_neg hq, if_neg hb, if_neg h32]
    have : JSString.ofChar c = [c.toNat] := by
      unfold JSString.ofChar; rw [if_pos h]
    rw [this]
    rfl

theorem escapeUnits_two (u l : Nat) (rest : List Nat) :
    escapeUnits (u :: l :: rest) =
      if isHigh u then
        if isLow l then
          Char.ofNat (65536 + (u - 55296) * 1024 + (l - 56320)) :: escapeUnits rest
        else hexEscape u ++ escapeUnits (l :: rest)
      else if isLow u then hexEscape u ++ escapeUnits (l :: rest)
      else escapeChar (Char.ofNat u) ++ escapeUnits (l :: rest) := by
  rw [escapeUnits]

theorem parseChars_pair (u l : Nat) (hu : isHigh u = true) (hl : isLow l = true)
    (tail : List Char) :
    parseChars (Char.ofNat (65536 + (u - 55296) * 1024 + (l - 56320)) :: tail)
      = (parseChars tail).map fun p => (u :: l :: p.1, p.2) := by
  simp only [isHigh, isLow, Bool.and_eq_true, decide_eq_true_eq] at hu hl
  have hv : (65536 + (u - 55296) * 1024 + (l - 56320)).isValidChar := by
    unfold Nat.isValidChar; omega
  have hn := toNat_ofNat _ hv
  have hq : Char.ofNat (65536 + (u - 55296) * 1024 + (l - 56320)) ≠ quote := by
    intro h; have := congrArg Char.toNat h; rw [hn] at this
    have h34 : quote.toNat = 34 := by decide
    omega
  have hb : Char.ofNat (65536 + (u - 55296) * 1024 + (l - 56320)) ≠ backslash := by
    intro h; have := congrArg Char.toNat h; rw [hn] at this
    have h92 : backslash.toNat = 92 := by decide
    omega
  rw [parseChars_cons, if_neg hq, if_neg hb, if_neg (by rw [hn]; omega)]
  have : JSString.ofChar (Char.ofNat (65536 + (u - 55296) * 1024 + (l - 56320))) = [u, l] := by
    unfold JSString.ofChar
    rw [hn, if_neg (by omega)]
    have h1 : 55296 + (65536 + (u - 55296) * 1024 + (l - 56320) - 65536) / 1024 = u := by omega
    have h2 : 56320 + (65536 + (u - 55296) * 1024 + (l - 56320) - 65536) % 1024 = l := by omega
    rw [h1, h2]
  rw [this]
  rfl

theorem parseChars_plain_unit (u : Nat) (h : u < 65536) (hh : isHigh u = false)
    (hl : isLow u = false) (tail : List Char) :
    parseChars (escapeChar (Char.ofNat u) ++ tail)
      = (parseChars tail).map fun p => (u :: p.1, p.2) := by
  simp only [isHigh, isLow, Bool.and_eq_false_iff, decide_eq_false_iff_not] at hh hl
  have hv : u.isValidChar := by unfold Nat.isValidChar; omega
  have hn := toNat_ofNat u hv
  have := parseChars_escapeChar (Char.ofNat u) (by rw [hn]; exact h) tail
  rwa [hn] at this

theorem parseChars_units_aux (n : Nat) :
    ∀ (us : List Nat) (rest : List Char), us.length ≤ n → (∀ u ∈ us, u < 65536) →
      parseChars (escapeUnits us ++ quote :: rest) = some (us, rest) := by
  induction n with
  | zero =>
    intro us rest hn _
    cases us with
    | nil =>
      show parseChars (quote :: rest) = _
      rw [parseChars_cons, if_pos rfl]
    | cons u us => simp at hn
  | succ n ih =>
    intro us rest hn hall
    cases us with
    | nil =>
      show parseChars (quote :: rest) = _
      rw [parseChars_cons, if_pos rfl]
    | cons u us =>
      have hu : u < 65536 := hall u (List.mem_cons_self _ _)
      have hall' : ∀ x ∈ us, x < 65536 := fun x hx => hall x (List.mem_cons_of_mem _ hx)
      have hlen : us.length ≤ n := by simp only [List.length_cons] at hn; omega
      have ih1 := ih us rest hlen hall'
      cases us with
      | nil =>
        rw [escapeUnits]
        have ih0 : parseChars (quote :: rest) = some ([], rest) := by
          rw [parseChars_cons, if_pos rfl]
        by_cases hs : (isHigh u || isLow u) = true
        · rw [if_pos hs, parseChars_hexEscape u hu, ih0]; rfl
        · rw [if_neg hs]
          simp only [Bool.or_eq_true, not_or, Bool.not_eq_true] at hs
          rw [parseChars_plain_unit u hu hs.1 hs.2, ih0]; rfl
      | cons l rest2 =>
        rw [escapeUnits_two]
        by_cases hh : isHigh u = true
        · rw [if_pos hh]
          by_cases hl : isLow l = true
          · rw [if_pos hl, List.cons_append, parseChars_pair u l hh hl,
              ih rest2 rest (by simp only [List.length_cons] at hlen; omega)
                (fun x hx => hall' x (List.mem_cons_of_mem _ hx))]
            rfl
          · rw [if_neg hl, List.append_assoc, parseChars_hexEscape u hu, ih1]; rfl
        · rw [if_neg hh]
          by_cases hl : isLow u = true
          · rw [if_pos hl, List.append_assoc, parseChars_hexEscape u hu, ih1]; rfl
          · rw [if_neg hl, List.append_assoc,
              parseChars_plain_unit u hu (by simpa using hh) (by simpa using hl), ih1]
            rfl

theorem parseChars_render (us : List Nat) (rest : List Char) (h : ∀ u ∈ us, u < 65536) :
    parseChars (escapeUnits us ++ quote :: rest) = some (us, rest) :=
  parseChars_units_aux us.length us rest (Nat.le_refl _) h

end JSON

/-! ### Numbers -/

namespace JSON

theorem digitChar_isDigit (d : Nat) (h : d < 10) : JS.isDigit (JS.digitChar d) = true := by
  interval_cases d <;> decide

theorem digitChar_val (d : Nat) (h : d < 10) : (JS.digitChar d).toNat - 48 = d := by
  interval_cases d <;> decide

theorem digitsVal_append (xs : List Char) (c : Char) :
    JS.digitsVal (xs ++ [c]) = JS.digitsVal xs * 10 + (c.toNat - 48) := by
  simp [JS.digitsVal, List.foldl_append]

theorem natDigits_spec (fuel n : Nat) (h : n < fuel) :
    (∀ c ∈ JS.natDigits fuel n, JS.isDigit c = true) ∧
    JS.digitsVal (JS.natDigits fuel n) = n ∧
    (∃ c cs, JS.natDigits fuel n = c :: cs ∧ (c = '0' → cs = [])) := by
  induction fuel generalizing n with
  | zero => omega
  | succ fuel ih =>
    unfold JS.natDigits
    by_cases h10 : n < 10
    · rw [if_pos h10]
      refine ⟨?_, ?_, ⟨_, [], rfl, fun _ => rfl⟩⟩
      · intro c hc
        rw [List.mem_singleton] at hc
        rw [hc]; exact digitChar_isDigit n h10
      · simp [JS.digitsVal, digitChar_val n h10]
    · rw [if_neg h10]
      have hlt : n / 10 < fuel := by omega
      obtain ⟨h1, h2, c, cs, h3, h4⟩ := ih (n / 10) hlt
      refine ⟨?_, ?_, ?_⟩
      · intro x hx
        rw [List.mem_append, List.mem_singleton] at hx
        rcases hx with hx | hx
        · exact h1 x hx
        · rw [hx]; exact digitChar_isDigit _ (Nat.mod_lt _ (by decide))
      · rw [digitsVal_append, h2, digitChar_val _ (Nat.mod_lt _ (by decide))]
        omega
      · refine ⟨c, cs ++ [JS.digitChar (n % 10)], by rw [h3]; rfl, ?_⟩
        intro hc
        exfalso
        have hcs := h4 hc
        rw [h3, hc, hcs] at h2
        have : JS.digitsVal ['0'] = 0 := by decide
        rw [this] at h2
        omega

theorem takeWhile_digits (ds rest : List Char) (hds : ∀ c ∈ ds, JS.isDigit c = true)
    (hrest : ∀ c r, rest = c :: r → JS.isDigit c = false) :
    (ds ++ rest).takeWhile JS.isDigit = ds ∧ (ds ++ rest).dropWhile JS.isDigit = rest := by
  induction ds with
  | nil =>
    cases rest with
    | nil => exact ⟨rfl, rfl⟩
    | cons c r =>
      have := hrest c r rfl
      simp [List.takeWhile, List.dropWhile, this]
  | cons d ds ih =>
    have hd := hds d (List.mem_cons_self _ _)
    have ih' := ih (fun c hc => hds c (List.mem_cons_of_mem _ hc))
    simp [List.takeWhile, List.dropWhile, hd, ih'.1, ih'.2]

theorem fractionPart_delim (rest : List Char)
    (hrest : ∀ c r, rest = c :: r → c = ',' ∨ c = ']' ∨ c = rbrace) :
    fractionPart rest = some ([], rest) ∧ exponentPart rest = some ([], rest) := by
  cases rest with
  | nil => exact ⟨rfl, rfl⟩
  | cons x r =>
    have hx : x ≠ '.' ∧ ¬ (x = 'e' ∨ x = 'E') := by
      rcases hrest x r rfl with h | h | h <;> rw [h] <;> decide
    constructor
    · unfold fractionPart; simp only; rw [if_neg hx.1]
    · unfold exponentPart; simp only; rw [if_neg hx.2]

theorem parseNumber_digits (ds rest : List Char) (n : Nat)
    (hds : ∀ c ∈ ds, JS.isDigit c = true) (hval : JS.digitsVal ds = n)
    (hshape : ∃ c cs, ds = c :: cs ∧ (c = '0' → cs = [])) (hmax : n ≤ MAX_EXACT)
    (hrest : ∀ c r, rest = c :: r → c = ',' ∨ c = ']' ∨ c = rbrace) :
    parseNumber (ds ++ rest) = some (.num (n : Int), rest) ∧
    parseNumber ('-' :: (ds ++ rest)) = some (.num (-(n : Int)), rest) := by
  have hrd : ∀ c r, rest = c :: r → JS.isDigit c = false := by
    intro c r h
    rcases hrest c r h with h | h | h <;> rw [h] <;> decide
  obtain ⟨htake, hdrop⟩ := takeWhile_digits ds rest hds hrd
  obtain ⟨hfrac, hexp⟩ := fractionPart_delim rest hrest
  obtain ⟨c, cs, hc, hzero⟩ := hshape
  have hne : ds ≠ [] := by rw [hc]; exact List.cons_ne_nil _ _
  have hlead : ¬ (ds.head? = some '0' ∧ ds.length ≠ 1) := by
    rintro ⟨h1, h2⟩
    rw [hc] at h1 h2
    have hc0 : c = '0' := by simpa using h1
    rw [hzero hc0] at h2
    exact h2 rfl
  have hminus : ¬ ((ds ++ rest).head? = some '-') := by
    rw [hc]
    have h1 : JS.isDigit c = true := hds c (by rw [hc]; exact List.mem_cons_self _ _)
    intro h
    have h2 : c = '-' := by simpa using h
    rw [h2] at h1
    exact absurd h1 (by decide)
  have hcond : ([] : List Char) = [] ∧ ([] : List Char) = [] ∧ n ≤ MAX_EXACT :=
    ⟨rfl, rfl, hmax⟩
  constructor
  · unfold parseNumber
    simp only [hminus, if_false, htake, hdrop, hne, hlead, hfrac, hexp, hval, hcond,
      and_self, if_true]
  · unfold parseNumber
    simp only [List.head?_cons, if_true, List.tail_cons, htake, hdrop, hne, if_false, hlead,
      hfrac, hexp, hval, hcond, and_self]

theorem parseNumber_render (n : Int) (rest : List Char) (hmax : n.natAbs ≤ MAX_EXACT)
    (hrest : ∀ c r, rest = c :: r → c = ',' ∨ c = ']' ∨ c = rbrace) :
    parseNumber (JS.intChars n ++ rest) = some (.num n, rest) := by
  obtain ⟨h1, h2, h3⟩ := natDigits_spec (n.natAbs + 1) n.natAbs (Nat.lt_succ_self _)
  have hp := parseNumber_digits _ rest n.natAbs h1 h2 h3 hmax hrest
  unfold JS.intChars
  by_cases hn : n < 0
  · rw [if_pos hn]
    have : -(n.natAbs : Int) = n := by omega
    rw [← this] at hp ⊢
    simpa using hp.2
  · rw [if_neg hn]
    have : (n.natAbs : Int) = n := by omega
    rw [this] at hp
    exact hp.1

theorem intChars_head (n : Int) :
    ∃ c cs, JS.intChars n = c :: cs ∧ (c = '-' ∨ JS.isDigit c = true) := by
  obtain ⟨h1, _, c, cs, h3, _⟩ := natDigits_spec (n.natAbs + 1) n.natAbs (Nat.lt_succ_self _)
  unfold JS.intChars
  by_cases hn : n < 0
  · rw [if_pos hn]; exact ⟨_, _, rfl, Or.inl rfl⟩
  · rw [if_neg hn, h3]
    exact ⟨c, cs, rfl, Or.inr (h1 c (by rw [h3]; exact List.mem_cons_self _ _))⟩

end JSON

/-! ### Values -/

namespace JSON

theorem skipWs_cons (c : Char) (cs : List Char) (h : isWs c = false) :
    skipWs (c :: cs) = c :: cs := by
  rw [skipWs, h]; rfl

theorem delim_cons (c : Char) (r : List Char) (h : c = ',' ∨ c = ']' ∨ c = rbrace) :
    ∀ c1 r1, c :: r = c1 :: r1 → c1 = ',' ∨ c1 = ']' ∨ c1 = rbrace := by
  intro c1 r1 he
  rw [← (List.cons.inj he).1]; exact h

theorem exact_arr (vs : List JSON) : exact (.arr vs) = exactAll vs := by rw [exact]

theorem exact_obj (ms : List (JSString × JSON)) : exact (.obj ms) = exactMembers ms := by
  rw [exact]

theorem exactAll_cons (v : JSON) (vs : List JSON) :
    exactAll (v :: vs) = (exact v && exactAll vs) := by rw [exactAll]

theorem exactMembers_cons (k : JSString) (v : JSON) (ms : List (JSString × JSON)) :
    exactMembers ((k, v) :: ms) =
      ((k.units.all fun u => decide (u < 65536)) && (arrayIndex k).isNone
        && !(ms.any fun m => m.1 = k) && exact v && exactMembers ms) := by
  rw [exactMembers]

/-- The parts of `exactMembers` on a non-empty member list. -/
theorem exactMembers_parts (k : JSString) (v : JSON) (ms : List (JSString × JSON))
    (h : exactMembers ((k, v) :: ms) = true) :
    (∀ u ∈ k.units, u < 65536) ∧ arrayIndex k = none ∧ (∀ m ∈ ms, m.1 ≠ k) ∧
    exact v = true ∧ exactMembers ms = true := by
  rw [exactMembers_cons] at h
  simp only [Bool.and_eq_true, List.all_eq_true, decide_eq_true_eq, Option.isNone_iff_eq_none,
    Bool.not_eq_true', List.any_eq_false] at h
  obtain ⟨⟨⟨⟨h1, h2⟩, h3⟩, h4⟩, h5⟩ := h
  exact ⟨h1, h2, fun m hm => h3 m hm, h4, h5⟩

theorem foldl_defineProp (ms acc : List (JSString × JSON)) (h : exactMembers ms = true)
    (hdis : ∀ m ∈ ms, ∀ a ∈ acc, a.1 ≠ m.1) :
    ms.foldl (fun acc m => defineProp acc m.1 m.2) acc = acc ++ ms := by
  induction ms generalizing acc with
  | nil => simp
  | cons m ms ih =>
    obtain ⟨k, v⟩ := m
    obtain ⟨_, hidx, hne, _, hms⟩ := exactMembers_parts k v ms h
    have hany : acc.any (fun a => decide (a.1 = k)) = false := by
      rw [List.any_eq_false]
      intro a ha
      simpa using hdis (k, v) (List.mem_cons_self _ _) a ha
    have hd : defineProp acc k v = acc ++ [(k, v)] := by
      unfold defineProp
      rw [hany, hidx]
      simp
    rw [List.foldl_cons, hd, ih (acc ++ [(k, v)]) hms]
    · simp
    · intro m hm a ha
      rw [List.mem_append, List.mem_singleton] at ha
      rcases ha with ha | ha
      · exact hdis m (List.mem_cons_of_mem _ hm) a ha
      · rw [ha]; exact fun heq => hne m hm heq.symm

theorem objectOf_exact (ms : List (JSString × JSON)) (h : exactMembers ms = true) :
    objectOf ms = .obj ms := by
  unfold objectOf
  rw [foldl_defineProp ms [] h (fun _ _ a ha => absurd ha (List.not_mem_nil a))]
  rfl

theorem render_head (v : JSON) (hx : exact v = true) :
    ∃ c cs, render v = c :: cs ∧ isWs c = false ∧ c ≠ ']' := by
  cases v with
  | null => exact ⟨_, _, by rw [render], by decide, by decide⟩
  | bool b => cases b <;> exact ⟨_, _, by rw [render], by decide, by decide⟩
  | num n =>
    obtain ⟨c, cs, h1, h2⟩ := intChars_head n
    refine ⟨c, cs, by rw [render, h1], ?_, ?_⟩
    · rcases h2 with h2 | h2
      · rw [h2]; decide
      · simp only [JS.isDigit, Bool.and_eq_true, decide_eq_true_eq] at h2
        simp only [isWs, Bool.or_eq_false_iff, decide_eq_false_iff_not]
        omega
    · rcases h2 with h2 | h2
      · rw [h2]; decide
      · intro hc; rw [hc] at h2; exact absurd h2 (by decide)
  | float l => rw [exact] at hx; cases hx
  | str s => exact ⟨_, _, by rw [render, renderString], by decide, by decide⟩
  | arr vs => exact ⟨_, _, by rw [render], by decide, by decide⟩
  | obj ms => exact ⟨_, _, by rw [render], by decide, by decide⟩

theorem render_length_pos (v : JSON) (hx : exact v = true) : 1 ≤ (render v).length := by
  obtain ⟨c, cs, h, _⟩ := render_head v hx
  rw [h]; simp

theorem renderElems_cons (v : JSON) (vs : List JSON) :
    renderElems (v :: vs) = render v ++ (match vs with
      | [] => []
      | _ :: _ => ',' :: renderElems vs) := by
  cases vs <;> rfl

theorem renderMembers_cons (k : JSString) (v : JSON) (ms : List (JSString × JSON)) :
    renderMembers ((k, v) :: ms) = renderString k ++ (':' :: render v) ++ (match ms with
      | [] => []
      | _ :: _ => ',' :: renderMembers ms) := by
  cases ms <;> rfl

theorem parseValue_cons (fuel : Nat) (c : Char) (rest : List Char) (hws : isWs c = false) :
    parseValue (fuel + 1) (c :: rest) =
      if c = '[' then
        match skipWs rest with
        | [] => none
        | c1 :: rest1 =>
          if c1 = ']' then some (.arr [], rest1)
          else (parseElems fuel rest).map fun p => (.arr p.1, p.2)
      else if c = lbrace then
        match skipWs rest with
        | [] => none
        | c1 :: rest1 =>
          if c1 = rbrace then some (.obj [], rest1)
          else (parseMembers fuel rest).map fun p => (objectOf p.1, p.2)
      else if c = quote then
        (parseChars rest).map fun p => (.str ⟨p.1⟩, p.2)
      else if c = 'n' then (expect ['u', 'l', 'l'] rest).map fun r => (.null, r)
      else if c = 't' then (expect ['r', 'u', 'e'] rest).map fun r => (.bool true, r)
      else if c = 'f' then (expect ['a', 'l', 's', 'e'] rest).map fun r => (.bool false, r)
      else parseNumber (c :: rest) := by
  rw [parseValue, skipWs_cons _ _ hws]
  try rfl

theorem parseValue_bracket (fuel : Nat) (c1 : Char) (tl : List Char) (hws : isWs c1 = false)
    (hne : c1 ≠ ']') :
    parseValue (fuel + 1) ('[' :: c1 :: tl)
      = (parseElems fuel (c1 :: tl)).map fun p => (.arr p.1, p.2) := by
  rw [parseValue_cons _ _ _ (by decide), if_pos rfl, skipWs_cons _ _ hws]
  show (if c1 = ']' then _ else _) = _
  rw [if_neg hne]

theorem parseValue_brace (fuel : Nat) (tl : List Char) :
    parseValue (fuel + 1) (lbrace :: quote :: tl)
      = (parseMembers fuel (quote :: tl)).map fun p => (objectOf p.1, p.2) := by
  rw [parseValue_cons _ _ _ (by decide), if_neg (by decide), if_pos rfl,
    skipWs_cons _ _ (by decide)]
  show (if quote = rbrace then _ else _) = _
  rw [if_neg (by decide)]

theorem parseElems_step (fuel : Nat) (cs : List Char) (v : JSON) (c : Char)
    (rest1 : List Char) (h : parseValue fuel cs = some (v, c :: rest1))
    (hws : isWs c = false) :
    parseElems (fuel + 1) cs =
      if c = ',' then (parseElems fuel rest1).map fun p => (v :: p.1, p.2)
      else if c = ']' then some ([v], rest1)
      else none := by
  rw [parseElems, h]
  simp only [skipWs_cons _ _ hws]

theorem parseMembers_step (fuel : Nat) (tl : List Char) (k : List Nat) (rest2 : List Char)
    (v : JSON) (c1 : Char) (rest4 : List Char)
    (hk : parseChars tl = some (k, ':' :: rest2))
    (hv : parseValue fuel rest2 = some (v, c1 :: rest4)) (hws : isWs c1 = false) :
    parseMembers (fuel + 1) (quote :: tl) =
      if c1 = ',' then
        (parseMembers fuel rest4).map fun p => ((⟨k⟩, v) :: p.1, p.2)
      else if c1 = rbrace then some ([(⟨k⟩, v)], rest4)
      else none := by
  have h1 : skipWs (':' :: rest2) = ':' :: rest2 := skipWs_cons _ _ (by decide)
  rw [parseMembers, skipWs_cons _ _ (by decide)]
  simp only [hk, h1, hv, skipWs_cons _ _ hws, if_true]

theorem parseValue_number (fuel : Nat) (n : Int) (rest : List Char)
    (hmax : n.natAbs ≤ MAX_EXACT)
    (hrest : ∀ c r, rest = c :: r → c = ',' ∨ c = ']' ∨ c = rbrace) :
    parseValue (fuel + 1) (JS.intChars n ++ rest) = some (.num n, rest) := by
  obtain ⟨c, cs, h1, h2⟩ := intChars_head n
  have hp := parseNumber_render n rest hmax hrest
  have hfacts : isWs c = false ∧ c ≠ '[' ∧ c ≠ lbrace ∧ c ≠ quote ∧ c ≠ 'n' ∧ c ≠ 't' ∧
      c ≠ 'f' := by
    rcases h2 with h2 | h2
    · rw [h2]; decide
    · simp only [JS.isDigit, Bool.and_eq_true, decide_eq_true_eq] at h2
      refine ⟨?_, ?_, ?_, ?_, ?_, ?_, ?_⟩
      · simp only [isWs, Bool.or_eq_false_iff, decide_eq_false_iff_not]; omega
      all_goals
        intro hc
        rw [hc] at h2
        revert h2
        decide
  rw [h1] at hp ⊢
  rw [List.cons_append] at hp ⊢
  rw [parseValue_cons _ _ _ hfacts.1, if_neg hfacts.2.1, if_neg hfacts.2.2.1,
    if_neg hfacts.2.2.2.1, if_neg hfacts.2.2.2.2.1, if_neg hfacts.2.2.2.2.2.1,
    if_neg hfacts.2.2.2.2.2.2, hp]

theorem parseValue_string (fuel : Nat) (s : JSString) (rest : List Char)
    (h : ∀ u ∈ s.units, u < 65536) :
    parseValue (fuel + 1) (renderString s ++ rest) = some (.str s, rest) := by
  have hp := parseChars_render s.units rest h
  unfold renderString
  rw [List.cons_append, List.append_assoc, List.singleton_append,
    parseValue_cons _ _ _ (by decide), if_neg (by decide), if_neg (by decide), if_pos rfl, hp]
  rfl

mutual
theorem parseValue_render : ∀ (v : JSON) (fuel : Nat) (rest : List Char),
    exact v = true → (render v).length ≤ fuel →
    (∀ c r, rest = c :: r → c = ',' ∨ c = ']' ∨ c = rbrace) →
    parseValue fuel (render v ++ rest) = some (v, rest)
  | .null, fuel, rest, _, hf, _ => by
    rw [render] at hf ⊢
    obtain ⟨f, rfl⟩ : ∃ f, fuel = f + 1 := ⟨fuel - 1, by simp at hf; omega⟩
    rfl
  | .bool true, fuel, rest, _, hf, _ => by
    rw [render] at hf ⊢
    obtain ⟨f, rfl⟩ : ∃ f, fuel = f + 1 := ⟨fuel - 1, by simp at hf; omega⟩
    rfl
  | .bool false, fuel, rest, _, hf, _ => by
    rw [render] at hf ⊢
    obtain ⟨f, rfl⟩ : ∃ f, fuel = f + 1 := ⟨fuel - 1, by simp at hf; omega⟩
    rfl
  | .num n, fuel, rest, hx, hf, hrest => by
    have hpos := render_length_pos (.num n) hx
    obtain ⟨f, rfl⟩ : ∃ f, fuel = f + 1 := ⟨fuel - 1, by omega⟩
    rw [exact, decide_eq_true_eq] at hx
    rw [render]
    exact parseValue_number f n rest hx hrest
  | .float l, _, _, hx, _, _ => by rw [exact] at hx; cases hx
  | .str s, fuel, rest, hx, hf, _ => by
    have hpos := render_length_pos (.str s) hx
    obtain ⟨f, rfl⟩ : ∃ f, fuel = f + 1 := ⟨fuel - 1, by omega⟩
    rw [exact, List.all_eq_true] at hx
    rw [render]
    exact parseValue_string f s rest (fun u hu => by simpa using hx u hu)
  | .arr [], fuel, rest, _, hf, _ => by
    rw [render] at hf ⊢
    obtain ⟨f, rfl⟩ : ∃ f, fuel = f + 1 := ⟨fuel - 1, by simp at hf; omega⟩
    rfl
  | .arr (v :: vs), fuel, rest, hx, hf, _ => by
    rw [render] at hf ⊢
    rw [exact_arr] at hx
    obtain ⟨f, rfl⟩ : ∃ f, fuel = f + 1 := ⟨fuel - 1, by simp at hf; omega⟩
    have hlen : (renderElems (v :: vs)).length + 1 ≤ f := by
      simp only [List.length_cons, List.length_append, List.length_singleton,
        List.length_nil] at hf
      omega
    have ih := parseElems_render (v :: vs) f rest (List.cons_ne_nil _ _) hx hlen
    have hxv : exact v = true := by
      rw [exactAll_cons, Bool.and_eq_true] at hx; exact hx.1
    obtain ⟨c, cs, hc, hws, hne⟩ := render_head v hxv
    have hstart : ∃ tl, renderElems (v :: vs) ++ ']' :: rest = c :: tl := by
      rw [renderElems_cons, hc]; exact ⟨_, rfl⟩
    obtain ⟨tl, htl⟩ := hstart
    rw [List.cons_append, List.append_assoc, List.singleton_append, htl,
      parseValue_bracket _ _ _ hws hne, ← htl, ih]
    rfl
  | .obj [], fuel, rest, _, hf, _ => by
    rw [render] at hf ⊢
    obtain ⟨f, rfl⟩ : ∃ f, fuel = f + 1 := ⟨fuel - 1, by simp at hf; omega⟩
    rfl
  | .obj ((k, w) :: ms), fuel, rest, hx, hf, _ => by
    rw [render] at hf ⊢
    rw [exact_obj] at hx
    obtain ⟨f, rfl⟩ : ∃ f, fuel = f + 1 := ⟨fuel - 1, by simp at hf; omega⟩
    have hlen : (renderMembers ((k, w) :: ms)).length + 1 ≤ f := by
      simp only [List.length_cons, List.length_append, List.length_singleton,
        List.length_nil] at hf
      omega
    have ih := parseMembers_render ((k, w) :: ms) f rest (List.cons_ne_nil _ _) hx hlen
    have hstart : ∃ tl, renderMembers ((k, w) :: ms) ++ rbrace :: rest = quote :: tl := by
      rw [renderMembers_cons, renderString]; exact ⟨_, rfl⟩
    obtain ⟨tl, htl⟩ := hstart
    rw [List.cons_append, List.append_assoc, List.singleton_append, htl,
      parseValue_brace, ← htl, ih]
    show some (objectOf ((k, w) :: ms), rest) = _
    rw [objectOf_exact _ hx]
theorem parseElems_render : ∀ (vs : List JSON) (fuel : Nat) (rest : List Char),
    vs ≠ [] → exactAll vs = true → (renderElems vs).length + 1 ≤ fuel →
    parseElems fuel (renderElems vs ++ ']' :: rest) = some (vs, rest)
  | [], _, _, hne, _, _ => absurd rfl hne
  | [v], fuel, rest, _, hx, hf => by
    obtain ⟨f, rfl⟩ : ∃ f, fuel = f + 1 := ⟨fuel - 1, by omega⟩
    have hr : renderElems [v] = render v := by rw [renderElems_cons]; simp
    rw [hr] at hf ⊢
    have hxv : exact v = true := by
      rw [exactAll_cons, Bool.and_eq_true] at hx; exact hx.1
    have ih := parseValue_render v f (']' :: rest) hxv (by omega)
      (delim_cons _ _ (Or.inr (Or.inl rfl)))
    rw [parseElems_step f _ v ']' rest ih (by decide), if_neg (by decide), if_pos rfl]
  | v :: w :: vs, fuel, rest, _, hx, hf => by
    obtain ⟨f, rfl⟩ : ∃ f, fuel = f + 1 := ⟨fuel - 1, by omega⟩
    have hr : renderElems (v :: w :: vs) = render v ++ ',' :: renderElems (w :: vs) := by
      rw [renderElems_cons]
    rw [exactAll_cons, Bool.and_eq_true] at hx
    have hpos := render_length_pos v hx.1
    rw [hr] at hf ⊢
    simp only [List.length_append, List.length_cons] at hf
    have ih1 := parseValue_render v f (',' :: (renderElems (w :: vs) ++ ']' :: rest)) hx.1
      (by omega) (delim_cons _ _ (Or.inl rfl))
    have ih2 := parseElems_render (w :: vs) f rest (List.cons_ne_nil _ _) hx.2 (by omega)
    rw [List.append_assoc, List.cons_append, parseElems_step f _ v ',' _ ih1 (by decide),
      if_pos rfl, ih2]
    rfl
theorem parseMembers_render : ∀ (ms : List (JSString × JSON)) (fuel : Nat) (rest : List Char),
    ms ≠ [] → exactMembers ms = true → (renderMembers ms).length + 1 ≤ fuel →
    parseMembers fuel (renderMembers ms ++ rbrace :: rest) = some (ms, rest)
  | [], _, _, hne, _, _ => absurd rfl hne
  | [(k, v)], fuel, rest, _, hx, hf => by
    obtain ⟨f, rfl⟩ : ∃ f, fuel = f + 1 := ⟨fuel - 1, by omega⟩
    have hr : renderMembers [(k, v)] = renderString k ++ (':' :: render v) := by
      rw [renderMembers_cons]; simp
    obtain ⟨hku, _, _, hxv, _⟩ := exactMembers_parts k v [] hx
    rw [hr] at hf ⊢
    simp only [List.length_append, List.length_cons] at hf
    have ih := parseValue_render v f (rbrace :: rest) hxv (by omega)
      (delim_cons _ _ (Or.inr (Or.inr rfl)))
    have hk := parseChars_render k.units (':' :: (render v ++ rbrace :: rest)) hku
    unfold renderString
    simp only [List.cons_append, List.append_assoc, List.singleton_append, List.nil_append]
    rw [parseMembers_step f _ k.units _ v rbrace rest hk ih (by decide),
      if_neg (by decide), if_pos rfl]
  | (k, v) :: m :: ms, fuel, rest, _, hx, hf => by
    obtain ⟨f, rfl⟩ : ∃ f, fuel = f + 1 := ⟨fuel - 1, by omega⟩
    have hr : renderMembers ((k, v) :: m :: ms)
        = renderString k ++ (':' :: render v) ++ ',' :: renderMembers (m :: ms) := by
      rw [renderMembers_cons]
    obtain ⟨hku, _, _, hxv, hxms⟩ := exactMembers_parts k v (m :: ms) hx
    rw [hr] at hf ⊢
    simp only [List.length_append, List.length_cons] at hf
    have ih1 := parseValue_render v f (',' :: (renderMembers (m :: ms) ++ rbrace :: rest)) hxv
      (by omega) (delim_cons _ _ (Or.inl rfl))
    have ih2 := parseMembers_render (m :: ms) f rest (List.cons_ne_nil _ _) hxms (by omega)
    have hk := parseChars_render k.units
      (':' :: (render v ++ ',' :: (renderMembers (m :: ms) ++ rbrace :: rest))) hku
    unfold renderString
    simp only [List.cons_append, List.append_assoc, List.singleton_append, List.nil_append]
    rw [parseMembers_step f _ k.units _ v ',' _ hk ih1 (by decide), if_pos rfl, ih2]
    rfl
end

/-- `JSON.parse(JSON.stringify(v))` is `v`, for every value on which the model is exact. -/
theorem parse_stringify (v : JSON) (hx : exact v = true) : parse (stringify v) = some v := by
  have h := parseValue_render v (2 * (render v).length + 2) [] hx (by omega)
    (fun c r h => by cases h)
  rw [List.append_nil] at h
  show (match parseValue (2 * (render v).length + 2) (render v) with
    | none => none
    | some (v, rest) => if skipWs rest = [] then some v else none) = some v
  rw [h]
  rfl

end JSON

namespace JSON

/-! ### The fuel of `parse` is enough -/

theorem skipWs_length (cs : List Char) : (skipWs cs).length ≤ cs.length := by
  induction cs with
  | nil => exact Nat.le_refl _
  | cons c cs ih =>
    rw [skipWs]
    split_ifs
    · exact Nat.le_succ_of_le ih
    · exact Nat.le_refl _

theorem parseChars_length_aux (n : Nat) :
    ∀ cs : List Char, cs.length ≤ n →
      ∀ k rest, parseChars cs = some (k, rest) → rest.length < cs.length := by
  induction n with
  | zero =>
    intro cs hn k rest h
    cases cs with
    | nil => rw [parseChars] at h; cases h
    | cons c cs => simp at hn
  | succ n ih =>
    intro cs hn k rest h
    cases cs with
    | nil => rw [parseChars] at h; cases h
    | cons c cs =>
      simp only [List.length_cons] at hn ⊢
      rw [parseChars_cons] at h
      split_ifs at h with h1 h2 h3
      · cases h; omega
      · cases cs with
        | nil => cases h
        | cons e r1 =>
          simp only at h
          split_ifs at h with h4
          · match r1, h with
            | a :: b :: c1 :: d :: r2, h =>
              simp only at h
              cases hh : hex4 a b c1 d with
              | none => rw [hh] at h; cases h
              | some ch =>
                rw [hh] at h
                simp only [Option.map_eq_some'] at h
                obtain ⟨p, hp, hpe⟩ := h
                have := ih r2 (by simp only [List.length_cons] at hn; omega) p.1 p.2 hp
                cases hpe
                simp only [List.length_cons]
                omega
            | [], h => cases h
            | [_], h => cases h
            | [_, _], h => cases h
            | [_, _, _], h => cases h
          · cases hu : unescape e with
            | none => rw [hu] at h; cases h
            | some ch =>
              rw [hu] at h
              simp only [Option.map_eq_some'] at h
              obtain ⟨p, hp, hpe⟩ := h
              have := ih r1 (by simp only [List.length_cons] at hn; omega) p.1 p.2 hp
              cases hpe
              simp only [List.length_cons]
              omega
      · simp only [Option.map_eq_some'] at h
        obtain ⟨p, hp, hpe⟩ := h
        have := ih cs (by omega) p.1 p.2 hp
        cases hpe
        omega

theorem parseChars_length (cs : List Char) (k : List Nat) (rest : List Char)
    (h : parseChars cs = some (k, rest)) :
    rest.length < cs.length :=
  parseChars_length_aux cs.length cs (Nat.le_refl _) k rest h

theorem expect_length (ws cs rest : List Char) (h : expect ws cs = some rest) :
    rest.length ≤ cs.length := by
  induction ws generalizing cs with
  | nil => rw [expect] at h; cases h; exact Nat.le_refl _
  | cons w ws ih =>
    cases cs with
    | nil => rw [expect] at h; cases h
    | cons c cs =>
      rw [expect] at h
      split_ifs at h
      exact Nat.le_succ_of_le (ih cs h)

theorem dropWhile_length (p : Char → Bool) (cs : List Char) :
    (cs.dropWhile p).length + (cs.takeWhile p).length = cs.length := by
  induction cs with
  | nil => rfl
  | cons c cs ih =>
    rw [List.dropWhile_cons, List.takeWhile_cons]
    cases p c
    · simp
    · simp only [if_true, List.length_cons]; omega

theorem fractionPart_length (cs frac rest : List Char)
    (h : fractionPart cs = some (frac, rest)) : rest.length ≤ cs.length := by
  unfold fractionPart at h
  cases cs with
  | nil => simp only at h; cases h; exact Nat.le_refl _
  | cons c tl =>
    simp only at h
    split_ifs at h
    · cases h
      have := dropWhile_length JS.isDigit tl
      simp only [List.length_cons]; omega
    · cases h; exact Nat.le_refl _

theorem exponentSign_length (cs : List Char) : (exponentSign cs).2.length ≤ cs.length := by
  unfold exponentSign
  cases cs with
  | nil => exact Nat.le_refl _
  | cons c tl =>
    simp only
    split_ifs
    · simp
    · exact Nat.le_refl _

theorem exponentPart_length (cs exp rest : List Char)
    (h : exponentPart cs = some (exp, rest)) : rest.length ≤ cs.length := by
  unfold exponentPart at h
  cases cs with
  | nil => simp only at h; cases h; exact Nat.le_refl _
  | cons c tl =>
    simp only at h
    split_ifs at h
    · cases h
      have h1 := dropWhile_length JS.isDigit (exponentSign tl).2
      have h2 := exponentSign_length tl
      simp only [List.length_cons]; omega
    · cases h; exact Nat.le_refl _

theorem parseNumber_length (cs : List Char) (v : JSON) (rest : List Char)
    (h : parseNumber cs = some (v, rest)) : rest.length < cs.length := by
  unfold parseNumber at h
  simp only at h
  have key : ∀ body : List Char, body.length ≤ cs.length →
      body.takeWhile JS.isDigit ≠ [] →
      ∀ frac r1 exp r2, fractionPart (body.dropWhile JS.isDigit) = some (frac, r1) →
        exponentPart r1 = some (exp, r2) → r2.length < cs.length := by
    intro body hb hne frac r1 exp r2 hf he
    have h1 := dropWhile_length JS.isDigit body
    have h2 : 0 < (body.takeWhile JS.isDigit).length := List.length_pos.mpr hne
    have h3 := fractionPart_length _ _ _ hf
    have h4 := exponentPart_length _ _ _ he
    omega
  by_cases hneg : cs.head? = some '-'
  · simp only [hneg, if_true] at h
    have hb : cs.tail.length ≤ cs.length := by simp
    split_ifs at h with h1 h2
    cases hf : fractionPart (cs.tail.dropWhile JS.isDigit) with
    | none => rw [hf] at h; cases h
    | some fr =>
      obtain ⟨frac, r1⟩ := fr
      rw [hf] at h
      simp only at h
      cases he : exponentPart r1 with
      | none => rw [he] at h; cases h
      | some er =>
        obtain ⟨exp, r2⟩ := er
        rw [he] at h
        simp only at h
        have hr : rest = r2 := by
          split_ifs at h <;> (cases h; rfl)
        rw [hr]
        exact key cs.tail hb h1 frac r1 exp r2 hf he
  · simp only [hneg, if_false] at h
    split_ifs at h with h1 h2
    cases hf : fractionPart (cs.dropWhile JS.isDigit) with
    | none => rw [hf] at h; cases h
    | some fr =>
      obtain ⟨frac, r1⟩ := fr
      rw [hf] at h
      simp only at h
      cases he : exponentPart r1 with
      | none => rw [he] at h; cases h
      | some er =>
        obtain ⟨exp, r2⟩ := er
        rw [he] at h
        simp only at h
        have hr : rest = r2 := by
          split_ifs at h <;> (cases h; rfl)
        rw [hr]
        exact key cs (Nat.le_refl _) h1 frac r1 exp r2 hf he

theorem parseValue_fuelFree_succ (f : Nat) (ihe : FuelFree parseElems f)
    (ihm : FuelFree parseMembers f) : FuelFree parseValue (f + 1) := by
  intro cs v rest h
  rw [parseValue] at h
  have hlen := skipWs_length cs
  generalize hs : skipWs cs = s at h hlen
  cases s with
  | nil => cases h
  | cons c r =>
    simp only [List.length_cons] at hlen
    have hgoal : ∀ g, parseValue (g + 1) cs = (match c :: r with
        | [] => none
        | c :: rest =>
          if c = '[' then
            match skipWs rest with
            | [] => none
            | c1 :: rest1 =>
              if c1 = ']' then some (.arr [], rest1)
              else (parseElems g rest).map fun p => (.arr p.1, p.2)
          else if c = lbrace then
            match skipWs rest with
            | [] => none
            | c1 :: rest1 =>
              if c1 = rbrace then some (.obj [], rest1)
              else (parseMembers g rest).map fun p => (objectOf p.1, p.2)
          else if c = quote then
            (parseChars rest).map fun p => (.str ⟨p.1⟩, p.2)
          else if c = 'n' then (expect ['u', 'l', 'l'] rest).map fun r => (.null, r)
          else if c = 't' then (expect ['r', 'u', 'e'] rest).map fun r => (.bool true, r)
          else if c = 'f' then (expect ['a', 'l', 's', 'e'] rest).map fun r => (.bool false, r)
          else parseNumber (c :: rest)) := by
      intro g; rw [parseValue, hs]; try rfl
    simp only at h hgoal
    by_cases h1 : c = '['
    · rw [if_pos h1] at h
      simp only [if_pos h1] at hgoal
      have hlen2 := skipWs_length r
      generalize hs2 : skipWs r = s2 at h hlen2 hgoal
      cases s2 with
      | nil => cases h
      | cons c1 r1 =>
        simp only [List.length_cons] at hlen2
        simp only at h hgoal
        by_cases h2 : c1 = ']'
        · rw [if_pos h2] at h
          simp only [if_pos h2] at hgoal
          cases h
          refine ⟨by omega, ?_⟩
          intro g hg
          obtain ⟨g', rfl⟩ : ∃ g', g = g' + 1 := ⟨g - 1, by omega⟩
          exact hgoal g'
        · rw [if_neg h2] at h
          simp only [if_neg h2] at hgoal
          simp only [Option.map_eq_some'] at h
          obtain ⟨p, hp, hpe⟩ := h
          obtain ⟨hl, hf⟩ := ihe r p.1 p.2 hp
          cases hpe
          refine ⟨by omega, ?_⟩
          intro g hg
          obtain ⟨g', rfl⟩ : ∃ g', g = g' + 1 := ⟨g - 1, by omega⟩
          rw [hgoal g', hf g' (by omega)]
          rfl
    · rw [if_neg h1] at h
      simp only [if_neg h1] at hgoal
      by_cases h3 : c = lbrace
      · rw [if_pos h3] at h
        simp only [if_pos h3] at hgoal
        have hlen2 := skipWs_length r
        generalize hs2 : skipWs r = s2 at h hlen2 hgoal
        cases s2 with
        | nil => cases h
        | cons c1 r1 =>
          simp only [List.length_cons] at hlen2
          simp only at h hgoal
          by_cases h2 : c1 = rbrace
          · rw [if_pos h2] at h
            simp only [if_pos h2] at hgoal
            cases h
            refine ⟨by omega, ?_⟩
            intro g hg
            obtain ⟨g', rfl⟩ : ∃ g', g = g' + 1 := ⟨g - 1, by omega⟩
            exact hgoal g'
          · rw [if_neg h2] at h
            simp only [if_neg h2] at hgoal
            simp only [Option.map_eq_some'] at h
            obtain ⟨p, hp, hpe⟩ := h
            obtain ⟨hl, hf⟩ := ihm r p.1 p.2 hp
            cases hpe
            refine ⟨by omega, ?_⟩
            intro g hg
            obtain ⟨g', rfl⟩ : ∃ g', g = g' + 1 := ⟨g - 1, by omega⟩
            rw [hgoal g', hf g' (by omega)]
            rfl
      · rw [if_neg h3] at h
        simp only [if_neg h3] at hgoal
        have hrest : rest.length < (c :: r).length := by
          split_ifs at h
          · simp only [Option.map_eq_some'] at h
            obtain ⟨p, hp, hpe⟩ := h
            cases hpe
            have := parseChars_length _ _ _ hp
            simp only [List.length_cons]; omega
          · simp only [Option.map_eq_some'] at h
            obtain ⟨p, hp, hpe⟩ := h
            cases hpe
            have := expect_length _ _ _ hp
            simp only [List.length_cons]; omega
          · simp only [Option.map_eq_some'] at h
            obtain ⟨p, hp, hpe⟩ := h
            cases hpe
            have := expect_length _ _ _ hp
            simp only [List.length_cons]; omega
          · simp only [Option.map_eq_some'] at h
            obtain ⟨p, hp, hpe⟩ := h
            cases hpe
            have := expect_length _ _ _ hp
            simp only [List.length_cons]; omega
          · exact parseNumber_length _ _ _ h
        simp only [List.length_cons] at hrest
        refine ⟨by omega, ?_⟩
        intro g hg
        obtain ⟨g', rfl⟩ : ∃ g', g = g' + 1 := ⟨g - 1, by omega⟩
        rw [hgoal g']
        exact h

theorem parseElems_fuelFree_succ (f : Nat) (ihv : FuelFree parseValue f)
    (ihe : FuelFree parseElems f) : FuelFree parseElems (f + 1) := by
  intro cs vs rest h
  rw [parseElems] at h
  cases hv : parseValue f cs with
  | none => rw [hv] at h; cases h
  | some q =>
    obtain ⟨v, r0⟩ := q
    rw [hv] at h
    simp only at h
    obtain ⟨hl0, hf0⟩ := ihv cs v r0 hv
    have hlen := skipWs_length r0
    have hgoal : ∀ g, parseValue g cs = some (v, r0) →
        parseElems (g + 1) cs = (match skipWs r0 with
          | [] => none
          | c :: rest1 =>
            if c = ',' then (parseElems g rest1).map fun p => (v :: p.1, p.2)
            else if c = ']' then some ([v], rest1)
            else none) := by
      intro g hg; rw [parseElems, hg]; try rfl
    generalize hs : skipWs r0 = s at h hlen hgoal
    cases s with
    | nil => cases h
    | cons c r1 =>
      simp only [List.length_cons] at hlen
      simp only at h hgoal
      by_cases h1 : c = ','
      · rw [if_pos h1] at h
        simp only [if_pos h1] at hgoal
        simp only [Option.map_eq_some'] at h
        obtain ⟨p, hp, hpe⟩ := h
        obtain ⟨hl, hf⟩ := ihe r1 p.1 p.2 hp
        cases hpe
        refine ⟨by omega, ?_⟩
        intro g hg
        obtain ⟨g', rfl⟩ : ∃ g', g = g' + 1 := ⟨g - 1, by omega⟩
        rw [hgoal g' (hf0 g' (by omega)), hf g' (by omega)]
        rfl
      · rw [if_neg h1] at h
        simp only [if_neg h1] at hgoal
        by_cases h2 : c = ']'
        · rw [if_pos h2] at h
          simp only [if_pos h2] at hgoal
          cases h
          refine ⟨by omega, ?_⟩
          intro g hg
          obtain ⟨g', rfl⟩ : ∃ g', g = g' + 1 := ⟨g - 1, by omega⟩
          exact hgoal g' (hf0 g' (by omega))
        · rw [if_neg h2] at h
          cases h

theorem parseMembers_fuelFree_succ (f : Nat) (ihv : FuelFree parseValue f)
    (ihm : FuelFree parseMembers f) : FuelFree parseMembers (f + 1) := by
  intro cs ms rest h
  rw [parseMembers] at h
  have hlen := skipWs_length cs
  have hgoal : ∀ g, parseMembers (g + 1) cs = (match skipWs cs with
      | [] => none
      | q :: rest =>
        if q = quote then
          match parseChars rest with
          | none => none
          | some (k, rest1) =>
            match skipWs rest1 with
            | [] => none
            | c :: rest2 =>
              if c = ':' then
                match parseValue g rest2 with
                | none => none
                | some (v, rest3) =>
                  match skipWs rest3 with
                  | [] => none
                  | c1 :: rest4 =>
                    if c1 = ',' then
                      (parseMembers g rest4).map fun p => ((⟨k⟩, v) :: p.1, p.2)
                    else if c1 = rbrace then some ([(⟨k⟩, v)], rest4)
                    else none
              else none
        else none) := by
    intro g; rw [parseMembers]; try rfl
  generalize hs : skipWs cs = s at h hlen hgoal
  cases s with
  | nil => cases h
  | cons q r =>
    simp only [List.length_cons] at hlen
    simp only at h hgoal
    by_cases hq : q = quote
    · rw [if_pos hq] at h
      simp only [if_pos hq] at hgoal
      cases hk : parseChars r with
      | none => rw [hk] at h; cases h
      | some kr =>
        obtain ⟨k, r1⟩ := kr
        rw [hk] at h
        simp only [hk] at hgoal
        simp only at h
        have hlk := parseChars_length _ _ _ hk
        have hlen1 := skipWs_length r1
        generalize hs1 : skipWs r1 = s1 at h hlen1 hgoal
        cases s1 with
        | nil => cases h
        | cons c r2 =>
          simp only [List.length_cons] at hlen1
          simp only at h hgoal
          by_cases hc : c = ':'
          · rw [if_pos hc] at h
            simp only [if_pos hc] at hgoal
            cases hv : parseValue f r2 with
            | none => rw [hv] at h; cases h
            | some vr =>
              obtain ⟨v, r3⟩ := vr
              rw [hv] at h
              simp only at h
              obtain ⟨hl3, hf3⟩ := ihv r2 v r3 hv
              have hlen3 := skipWs_length r3
              generalize hs3 : skipWs r3 = s3 at h hlen3
              cases s3 with
              | nil => cases h
              | cons c1 r4 =>
                simp only [List.length_cons] at hlen3
                simp only at h
                by_cases h1 : c1 = ','
                · rw [if_pos h1] at h
                  simp only [Option.map_eq_some'] at h
                  obtain ⟨p, hp, hpe⟩ := h
                  obtain ⟨hl, hf⟩ := ihm r4 p.1 p.2 hp
                  cases hpe
                  refine ⟨by omega, ?_⟩
                  intro g hg
                  obtain ⟨g', rfl⟩ : ∃ g', g = g' + 1 := ⟨g - 1, by omega⟩
                  rw [hgoal g', hf3 g' (by omega)]
                  simp only [hs3, if_pos h1, hf g' (by omega)]
                  rfl
                · rw [if_neg h1] at h
                  by_cases h2 : c1 = rbrace
                  · rw [if_pos h2] at h
                    cases h
                    refine ⟨by omega, ?_⟩
                    intro g hg
                    obtain ⟨g', rfl⟩ : ∃ g', g = g' + 1 := ⟨g - 1, by omega⟩
                    rw [hgoal g', hf3 g' (by omega)]
                    simp only [hs3, if_neg h1, if_pos h2]
                  · rw [if_neg h2] at h
                    cases h
          · rw [if_neg hc] at h
            cases h
    · rw [if_neg hq] at h
      cases h

theorem fuelFree_all (f : Nat) :
    FuelFree parseValue f ∧ FuelFree parseElems f ∧ FuelFree parseMembers f := by
  induction f with
  | zero =>
    refine ⟨?_, ?_, ?_⟩
    · intro cs a rest h; rw [parseValue] at h; cases h
    · intro cs a rest h; rw [parseElems] at h; cases h
    · intro cs a rest h; rw [parseMembers] at h; cases h
  | succ f ih =>
    exact ⟨parseValue_fuelFree_succ f ih.2.1 ih.2.2,
      parseElems_fuelFree_succ f ih.1 ih.2.1, parseMembers_fuelFree_succ f ih.1 ih.2.2⟩

/-- The fuel that `parse` hands to `parseValue` is enough: whatever `parseValue` reads from a
text with some fuel, `parse` reads from it. -/
theorem parse_of_fuel (text : String) (f : Nat) (v : JSON) (rest : List Char)
    (h : parseValue f text.data = some (v, rest)) (hrest : skipWs rest = []) :
    parse text = some v := by
  obtain ⟨_, hf⟩ := (fuelFree_all f).1 text.data v rest h
  have h2 := hf (2 * text.length + 2) (by
    have : text.length = text.data.length := rfl
    omega)
  unfold parse
  rw [h2]
  simp only [hrest, if_true]

end JSON

namespace Storage

theorem map_set_of_absent (es : List (String × String)) (key value : String)
    (h : es.any (fun e => e.1 = key) = false) :
    es.map (fun e => if e.1 = key then (key, value) else e) = es := by
  induction es with
  | nil => rfl
  | cons e es ih =>
    rw [List.any_cons, Bool.or_eq_false_iff] at h
    have he : ¬ e.1 = key := by simpa using h.1
    rw [List.map_cons, if_neg he, ih h.2]

theorem map_set_twice (es : List (String × String)) (key value : String) :
    (es.map fun e => if e.1 = key then (key, value) else e).map
        (fun e => if e.1 = key then (key, value) else e)
      = es.map fun e => if e.1 = key then (key, value) else e := by
  induction es with
  | nil => rfl
  | cons e es ih =>
    rw [List.map_cons, List.map_cons, ih]
    by_cases he : e.1 = key
    · rw [if_pos he, if_pos rfl]
    · rw [if_neg he, if_neg he]

theorem any_map_set (es : List (String × String)) (key value : String)
    (h : es.any (fun e => e.1 = key) = true) :
    (es.map fun e => if e.1 = key then (key, value) else e).any (fun e => e.1 = key) = true := by
  induction es with
  | nil => cases h
  | cons e es ih =>
    rw [List.map_cons, List.any_cons, Bool.or_eq_true]
    rw [List.any_cons, Bool.or_eq_true] at h
    by_cases he : e.1 = key
    · left; rw [if_pos he]; exact decide_eq_true rfl
    · right
      rcases h with h | h
      · exact absurd (of_decide_eq_true h) he
      · exact ih h

/-- Writing the same value twice under a key is writing it once. -/
theorem setItem_setItem_same (st : Storage) (key value : String) :
    (st.setItem key value).setItem key value = st.setItem key value := by
  cases h : st.entries.any (fun e => e.1 = key) with
  | true =>
    have h1 : st.setItem key value
        = ⟨st.entries.map fun e => if e.1 = key then (key, value) else e⟩ := by
      unfold setItem; rw [if_pos h]
    rw [h1]
    unfold setItem
    rw [if_pos (any_map_set _ _ _ h), map_set_twice]
  | false =>
    have h1 : st.setItem key value = ⟨st.entries ++ [(key, value)]⟩ := by
      unfold setItem; rw [if_neg (by rw [h]; decide)]
    rw [h1]
    unfold setItem
    have h2 : (st.entries ++ [(key, value)]).any (fun e => e.1 = key) = true := by
      rw [List.any_append, Bool.or_eq_true]
      right
      rw [List.any_cons, Bool.or_eq_true]
      left; exact decide_eq_true rfl
    rw [if_pos h2, List.map_append, map_set_of_absent _ _ _ h]
    simp only [List.map_cons, List.map_nil, if_true]

end Storage

/-- The persist effect of an unchanged history rewrites the value already stored. -/
theorem commit_persistEffect_same (s : AppState) :
    commit (persistEffect s.history s) = persistEffect s.history s := by
  unfold commit persistEffect
  simp only [Storage.setItem_setItem_same]

/-! ## The page: renders that throw and writes that are refused -/

open STORAGE_KEYS

theorem commit_persisted (s : AppState) :
    (commit s).sessionStorage.getItem HISTORY
      = some (JSON.stringify (.arr (commit s).history)) := by
  unfold commit persistEffect
  exact Storage.getItem_setItem_same _ _ _

namespace Page

/-- What a mounted outcome of `rerender` says: the render completed, and when `setHistory`
was called the write was accepted and the persist effect ran. -/
theorem rerender_live (accepts : Quota) (historySet : Bool) (s s' : AppState)
    (h : rerender accepts historySet s = .live s') :
    renders s = true ∧
    (historySet = true →
      accepts s.sessionStorage HISTORY (JSON.stringify (.arr s.history)) = true ∧
        s' = commit s) ∧
    (historySet = false → s' = s) := by
  unfold rerender at h
  by_cases hr : renders s = true
  · rw [if_pos hr] at h
    refine ⟨hr, ?_, ?_⟩
    · intro hset
      rw [if_pos hset] at h
      by_cases ha : accepts s.sessionStorage HISTORY (JSON.stringify (.arr s.history)) = true
      · rw [if_pos ha] at h
        exact ⟨ha, (Page.live.inj h).symm⟩
      · rw [if_neg ha] at h; cases h
    · intro hset
      rw [if_neg (by rw [hset]; decide)] at h
      exact (Page.live.inj h).symm
  · rw [if_neg hr] at h; cases h

/-- The outcome of `rerender` when the render completes and the write is accepted. -/
theorem rerender_of_renders (accepts : Quota) (s : AppState) (hr : renders s = true)
    (ha : accepts s.sessionStorage HISTORY (JSON.stringify (.arr s.history)) = true) :
    rerender accepts true s = .live (commit s) := by
  unfold rerender
  rw [if_pos hr, if_pos rfl, if_pos ha]

theorem rerender_true_persisted (accepts : Quota) (s s' : AppState)
    (h : rerender accepts true s = .live s') :
    s'.sessionStorage.getItem HISTORY = some (JSON.stringify (.arr s'.history)) := by
  obtain ⟨_, h2, _⟩ := rerender_live accepts true s s' h
  rw [(h2 rfl).2]
  exact commit_persisted s

end Page

theorem hydrate_of_no_text (saved : Option String)
    (h : (match saved with | none => false | some text => decide (text ≠ "")) = false) :
    hydrate saved [] = [] := by
  unfold hydrate
  cases saved with
  | none => rfl
  | some text =>
    simp only [decide_eq_false_iff_not, ne_eq, not_not] at h
    simp only [h, if_true]

theorem mountEffect_history_of_not_set (now : Int) (storage : Storage)
    (h : mountSetsHistory now storage = false) :
    (mountEffect now (initialState storage)).history = [] := by
  unfold mountSetsHistory at h
  rw [Bool.or_eq_false_iff] at h
  rcases mountEffect_history_cases now storage with hc | hc
  · exact hc
  · rw [hc]; exact hydrate_of_no_text _ h.2

theorem persistEffect_nil_persisted (s : AppState) (h : s.history = []) :
    (persistEffect [] s).sessionStorage.getItem HISTORY
      = some (JSON.stringify (.arr (persistEffect [] s).history)) := by
  have : (persistEffect [] s).history = [] := h
  rw [this]
  unfold persistEffect
  exact Storage.getItem_setItem_same _ _ _

namespace Page

/-- A page that is mounted after its load has its history persisted. -/
theorem load_persisted (accepts : Quota) (now : Int) (storage : Storage) (s : AppState)
    (h : load accepts now storage = .live s) :
    s.sessionStorage.getItem HISTORY = some (JSON.stringify (.arr s.history)) := by
  unfold load at h
  simp only at h
  split_ifs at h with h1 h2
  cases hset : mountSetsHistory now storage with
  | true =>
    rw [hset] at h
    exact rerender_true_persisted accepts _ s h
  | false =>
    rw [hset] at h
    obtain ⟨_, _, h3⟩ := rerender_live accepts false _ s h
    rw [h3 rfl]
    exact persistEffect_nil_persisted _ (mountEffect_history_of_not_set now storage hset)

theorem applyOp_persisted (accepts : Quota) (p : Page) (op : HistoryOp) (s : AppState)
    (h : applyOp accepts p op = .live s) :
    s.sessionStorage.getItem HISTORY = some (JSON.stringify (.arr s.history)) := by
  cases p with
  | crashed st => cases op <;> cases h
  | live s0 =>
    cases op with
    | add x => exact rerender_true_persisted accepts _ s h
    | clear => exact rerender_true_persisted accepts _ s h

theorem applyOps_persisted (accepts : Quota) (ops : List HistoryOp) (p : Page)
    (hp : ∀ s, p = .live s →
      s.sessionStorage.getItem HISTORY = some (JSON.stringify (.arr s.history)))
    (s : AppState) (h : applyOps accepts p ops = .live s) :
    s.sessionStorage.getItem HISTORY = some (JSON.stringify (.arr s.history)) := by
  induction ops generalizing p with
  | nil => exact hp s h
  | cons op ops ih =>
    exact ih (applyOp accepts p op) (fun s' hs' => applyOp_persisted accepts p op s' hs') h

end Page

/-- C3, amended: load the page over a storage whose session start is absent or the decimal
text of an integer (what the component itself writes), and apply any sequence of successful
submissions and calls of `clearSession`.  Immediately after each operation after which the
component is still mounted (every render so far completed and the browser accepted every
write), and whose history holds values on which the model is exact, the text stored under
`rx_history` is the `JSON.stringify` of the history in memory and `JSON.parse` reads it back
as exactly that list.  A further operation keeps the component mounted when the render of
the new state completes and the write is accepted. -/
theorem C3_mounted_page_persists_history (accepts : Quota) (now : Int) (storage : Storage)
    (ops : List HistoryOp) (k : Nat) (s : AppState)
    (hstart : ∀ raw, storage.getItem SESSION_START = some raw → ∃ n : Int, raw = JS.StringOf n)
    (hlive : Page.applyOps accepts (Page.load accepts now storage) (ops.take k) = .live s)
    (hx : JSON.exact (.arr s.history) = true) :
    s.sessionStorage.getItem HISTORY = some (JSON.stringify (.arr s.history)) ∧
    JSON.parse (JSON.stringify (.arr s.history)) = some (.arr s.history) ∧
    (∀ x : Submission,
      renders (handleSubmitSettle x.file (.response true (some x.apiRes)) (.loaded x.dataUrl)
        x.saltHex x.id x.tsNow s) = true →
      accepts s.sessionStorage HISTORY (JSON.stringify (.arr (x.record :: s.history))) = true →
      Page.applyOp accepts (.live s) (.add x) = .live (applyOp s (.add x))) ∧
    (accepts (s.sessionStorage.removeItem HISTORY) HISTORY (JSON.stringify (.arr [])) = true →
      Page.applyOp accepts (.live s) .clear = .live (applyOp s .clear)) := by
  have _ := hstart
  refine ⟨?_, JSON.parse_stringify _ hx, ?_, ?_⟩
  · exact Page.applyOps_persisted accepts (ops.take k) _
      (fun s' hs' => Page.load_persisted accepts now storage s' hs') s hlive
  · intro x hr ha
    exact Page.rerender_of_renders accepts _ hr ha
  · intro ha
    exact Page.rerender_of_renders accepts (clearSession s) rfl ha

/-- C3 amended, on a concrete page: loaded at 5000 inside the window that started at 1000,
then a study is uploaded, the history cleared and the study uploaded again. -/
theorem C3_mounted_page_witness :
    Page.applyOps Quota.unlimited
        (Page.load Quota.unlimited 5000 ⟨[("session_start_ms", "1000")]⟩)
        [.add Example.plainSubmission, .clear, .add Example.plainSubmission]
      = .live (applyOps (mount 5000 ⟨[("session_start_ms", "1000")]⟩)
        [.add Example.plainSubmission, .clear, .add Example.plainSubmission]) ∧
    (applyOps (mount 5000 ⟨[("session_start_ms", "1000")]⟩)
      [.add Example.plainSubmission, .clear, .add Example.plainSubmission]).history
      = [Example.plainSubmission.record] ∧
    (applyOps (mount 5000 ⟨[("session_start_ms", "1000")]⟩)
      [.add Example.plainSubmission, .clear, .add Example.plainSubmission]).sessionStorage.getItem
        HISTORY
      = some (JSON.stringify (.arr (applyOps (mount 5000 ⟨[("session_start_ms", "1000")]⟩)
        [.add Example.plainSubmission, .clear, .add Example.plainSubmission]).history)) ∧
    JSON.parse (JSON.stringify (.arr (applyOps (mount 5000 ⟨[("session_start_ms", "1000")]⟩)
        [.add Example.plainSubmission, .clear, .add Example.plainSubmission]).history))
      = some (.arr (applyOps (mount 5000 ⟨[("session_start_ms", "1000")]⟩)
        [.add Example.plainSubmission, .clear, .add Example.plainSubmission]).history) :=
  have h := C3_mounted_page_persists_history Quota.unlimited 5000
    ⟨[("session_start_ms", "1000")]⟩
    [.add Example.plainSubmission, .clear, .add Example.plainSubmission] 3
    (applyOps (mount 5000 ⟨[("session_start_ms", "1000")]⟩)
      [.add Example.plainSubmission, .clear, .add Example.plainSubmission])
    (fun _ hraw => ⟨1000, (Option.some.inj hraw).symm⟩) rfl rfl
  ⟨rfl, rfl, h.1, h.2.1⟩

/-- C3 as stated fails: a successful submission whose response carries an object as
prediction puts its record into the history, the render of that state throws, the component
is unmounted and the persist effect never runs; the text under `rx_history` still reads back
as the empty list. -/
theorem C3_unrenderable_record_is_not_persisted :
    Page.load Quota.unlimited 1000 ⟨[]⟩ = .live (mount 1000 ⟨[]⟩) ∧
    (handleSubmitSettle Example.objectSubmission.file
      (.response true (some Example.objectSubmission.apiRes))
      (.loaded Example.objectSubmission.dataUrl) Example.objectSubmission.saltHex
      Example.objectSubmission.id Example.objectSubmission.tsNow (mount 1000 ⟨[]⟩)).history
      = [Example.objectSubmission.record] ∧
    Page.applyOps Quota.unlimited (Page.load Quota.unlimited 1000 ⟨[]⟩)
        [.add Example.objectSubmission]
      = .crashed ⟨[("session_start_ms", "1000"), ("rx_history", "[]")]⟩ ∧
    (Page.applyOps Quota.unlimited (Page.load Quota.unlimited 1000 ⟨[]⟩)
        [.add Example.objectSubmission]).storage.getItem HISTORY = some "[]" ∧
    JSON.parse "[]" = some (.arr []) := by
  refine ⟨rfl, rfl, rfl, rfl, rfl⟩

/-- A write that the browser refuses unmounts the component too: when the storage has no
room for a history other than the empty one, the record of a successful submission is never
persisted. -/
theorem refused_write_unmounts_page :
    Page.load Example.noRoom 1000 ⟨[]⟩
      = .live (mount 1000 ⟨[]⟩) ∧
    Page.applyOps Example.noRoom
        (Page.load Example.noRoom 1000 ⟨[]⟩)
        [.add Example.plainSubmission]
      = .crashed ⟨[("session_start_ms", "1000"), ("rx_history", "[]")]⟩ := by
  refine ⟨rfl, rfl⟩

/-! ## The completing path -/

namespace Page

/-- A load that leaves the component mounted leaves it in the state `mount`. -/
theorem load_live (accepts : Quota) (now : Int) (storage : Storage) (s : AppState)
    (h : load accepts now storage = .live s) : s = mount now storage := by
  unfold load at h
  simp only at h
  split_ifs at h with h1 h2
  cases hset : mountSetsHistory now storage with
  | true =>
    rw [hset] at h
    exact ((rerender_live accepts true _ s h).2.1 rfl).2
  | false =>
    rw [hset] at h
    rw [(rerender_live accepts false _ s h).2.2 rfl]
    have hm := mountEffect_history_of_not_set now storage hset
    have hc := commit_persistEffect_same (mountEffect now (initialState storage))
    rw [hm] at hc
    exact hc.symm

/-- Nothing happens on a tab whose component is unmounted. -/
theorem run_crashed (accepts : Quota) (events : List Event) (st : Storage) :
    run accepts (.crashed st) events = .crashed st := by
  induction events with
  | nil => rfl
  | cons e es ih => exact ih

theorem rerender_unlimited_live (historySet : Bool) (s s' : AppState)
    (h : rerender Quota.unlimited historySet s = .live s') :
    s' = if historySet then commit s else s := by
  obtain ⟨_, h1, h2⟩ := rerender_live _ historySet s s' h
  cases historySet with
  | true => exact (h1 rfl).2
  | false => exact h2 rfl

/-- In a browser that accepts every write, an event that leaves the component mounted leaves
it in the state `step`. -/
theorem react_unlimited_live (s s' : AppState) (e : Event)
    (h : react Quota.unlimited (.live s) e = .live s') : s' = step s e := by
  cases e with
  | selectFile f => exact rerender_unlimited_live false _ s' h
  | submit =>
    simp only [react] at h
    simp only [step]
    split_ifs at h ⊢
    · exact (Page.live.inj h).symm
    · exact rerender_unlimited_live false _ s' h
  | settle file fetched read saltHex id tsNow =>
    simp only [react] at h
    simp only [step]
    split_ifs at h ⊢
    · exact (Page.live.inj h).symm
    · cases hapi : apiResult fetched with
      | none =>
        rw [hapi] at h
        exact rerender_unlimited_live false _ s' h
      | some apiRes =>
        rw [hapi] at h
        cases read with
        | rejected => exact rerender_unlimited_live false _ s' h
        | loaded dataUrl => exact rerender_unlimited_live true _ s' h
  | clear =>
    simp only [react] at h
    simp only [step]
    split_ifs at h ⊢
    · exact (Page.live.inj h).symm
    · exact rerender_unlimited_live true _ s' h
  | openDetail i => exact rerender_unlimited_live false _ s' h
  | closeDetail => exact rerender_unlimited_live false _ s' h
  | expire now =>
    simp only [react] at h
    simp only [step]
    split_ifs at h ⊢
    · exact rerender_unlimited_live true _ s' h
    · exact absurd rfl (by assumption)
    · exact (Page.live.inj h).symm

end Page

/-- In a browser that accepts every write, a sequence of events that leaves the component
mounted leaves it in the state `run`. -/
theorem page_run_unlimited_live (events : List Event) (s s' : AppState)
    (h : Page.run Quota.unlimited (.live s) events = .live s') : s' = run s events := by
  induction events generalizing s with
  | nil => exact (Page.live.inj h).symm
  | cons e es ih =>
    have hstep : Page.run Quota.unlimited (.live s) (e :: es)
        = Page.run Quota.unlimited (Page.react Quota.unlimited (.live s) e) es := rfl
    rw [hstep] at h
    cases hr : Page.react Quota.unlimited (.live s) e with
    | crashed st =>
      rw [hr, Page.run_crashed] at h
      cases h
    | live s1 =>
      rw [hr] at h
      rw [ih s1 h, Page.react_unlimited_live s s1 e hr]
      rfl

/-- The example sessions are sessions of a mounted page: every render in them completes. -/
theorem example_sessions_are_live :
    Page.load Quota.unlimited 1000 ⟨[]⟩ = .live (mount 1000 ⟨[]⟩) ∧
    Page.run Quota.unlimited (Page.load Quota.unlimited 1000 ⟨[]⟩)
        [.selectFile (some ⟨"scan1.png"⟩), .submit] = .live Example.submitting ∧
    Page.run Quota.unlimited (Page.load Quota.unlimited 1000 ⟨[]⟩) (Example.upload "u1" 2000)
      = .live Example.freshUpload ∧
    Page.run Quota.unlimited (Page.load Quota.unlimited 1000 ⟨[]⟩)
        (Example.upload "u1" 2000 ++ Example.upload "u2" 3000 ++ Example.upload "u3" 4000 ++
          [.openDetail 1])
      = .live Example.threeStudies ∧
    Page.run Quota.unlimited (Page.load Quota.unlimited 5000 ⟨[("session_start_ms", "1000")]⟩)
        (.expire 14401000 :: Example.upload "u2" 14402000)
      = .live Example.renewedUpload := by
  refine ⟨rfl, rfl, rfl, rfl, rfl⟩

/-! ## The display identifier -/

namespace SHA256

theorem hexDigit_isHex (d : Nat) (h : d < 16) : isHexChar (hexDigit d) = true := by
  interval_cases d <;> decide

theorem wordHex_isHex (w : Nat) : ∀ c ∈ wordHex w, isHexChar c = true := by
  intro c hc
  simp only [wordHex, List.mem_cons, List.mem_singleton, List.not_mem_nil, or_false] at hc
  rcases hc with h | h | h | h | h | h | h | h <;> rw [h] <;>
    exact hexDigit_isHex _ (Nat.mod_lt _ (by decide))

theorem digestChars_length (s : String) : (digestChars s).length = 64 := by
  simp [digestChars, wordHex]

theorem digestChars_isHex (s : String) : ∀ c ∈ digestChars s, isHexChar c = true := by
  intro c hc
  simp only [digestChars, List.mem_append] at hc
  rcases hc with ((((((h | h) | h) | h) | h) | h) | h) | h <;> exact wordHex_isHex _ c h

end SHA256

theorem displayIdOf_length (saltHex fileName : String) (tsNow : Int) :
    (displayIdOf saltHex fileName tsNow).length = 12 := by
  simp [displayIdOf, sha256Hex, SHA256.sha256, String.length, SHA256.digestChars_length]

theorem displayIdOf_isHex (saltHex fileName : String) (tsNow : Int) :
    ∀ c ∈ (displayIdOf saltHex fileName tsNow).data, SHA256.isHexChar c = true := by
  intro c hc
  simp only [displayIdOf, sha256Hex, SHA256.sha256] at hc
  exact SHA256.digestChars_isHex _ c (List.mem_of_mem_take hc)

theorem diagnosisOf_present (r v : JSON) (h : r.getProp "prediction" = some v)
    (hv : v ≠ .null) : diagnosisOf r = v := by
  unfold diagnosisOf
  rw [h]
  cases v <;> first | rfl | exact absurd rfl hv

theorem diagnosisOf_absent (r : JSON)
    (h : r.getProp "prediction" = none ∨ r.getProp "prediction" = some .null) :
    diagnosisOf r = .str NO_DIAGNOSIS := by
  unfold diagnosisOf
  rcases h with h | h <;> rw [h]


/-! ## A successful submission -/

/-- The list entry of a new record renders exactly when its diagnosis does. -/
theorem entryRenders_newItem (id dataUrl displayId : String) (tsNow : Int) (diagnosis : JSON) :
    entryRenders (newItemOf id tsNow diagnosis dataUrl displayId) = diagnosis.renderable := rfl

/-- After a successful submission the render completes when it completed before and the
diagnosis can be rendered. -/
theorem renders_settle (file : File) (r : JSON) (dataUrl saltHex id : String) (tsNow : Int)
    (s : AppState) (hs : renders s = true) (hd : (diagnosisOf r).renderable = true) :
    renders (handleSubmitSettle file (.response true (some r)) (.loaded dataUrl) saltHex id
      tsNow s) = true := by
  unfold renders at hs ⊢
  simp only [Bool.and_eq_true] at hs ⊢
  refine ⟨⟨hd, ?_⟩, hs.2⟩
  show (newItemOf id tsNow (diagnosisOf r) dataUrl (displayIdOf saltHex file.name tsNow)
    :: s.history).all entryRenders = true
  rw [List.all_cons, Bool.and_eq_true]
  exact ⟨hd, hs.1.2⟩

/-- C5, amended: a submission whose response is ok with JSON body `r` and whose file read
yields `dataUrl`, settling on a mounted page whose render completes, with a diagnosis that
React can render as a child (anything but an object, or an array holding one) and a write of
the new history that the browser accepts, leaves the page mounted with one record in front
of the history, persisted as such.  The record's `diagnosis` is `r.prediction` when that is
present and not null and the placeholder otherwise, its `ts` is the time `t`, its
`imageDataUrl` is `dataUrl`, and its `displayId` is the first 12 characters of the SHA-256
hexadecimal digest of `salt + "|" + name + "|" + t`: a function of that triple alone, 12
characters long, all of them hexadecimal digits.  The result shown is the diagnosis and
`loading` is false again.  The digest is SHA-256 over the UTF-8 bytes of the text: it takes
the published values on a one-block message, on a two-block message and on text outside
ASCII, and the identifier of `scan1.png` at time 1000 is `3de64e340e4c`. -/
theorem C5_rendered_submission_adds_record (accepts : Quota) (s : AppState) (file : File)
    (r : JSON) (dataUrl saltHex id : String) (tsNow : Int)
    (hflight : s.inFlight ≠ 0)
    (hs : renders s = true)
    (hd : (diagnosisOf r).renderable = true)
    (ha : accepts s.sessionStorage HISTORY
      (JSON.stringify (.arr (newItemOf id tsNow (diagnosisOf r) dataUrl
        (displayIdOf saltHex file.name tsNow) :: s.history))) = true) :
    ∃ (newItem : JSON) (s' : AppState),
      Page.react accepts (.live s)
        (.settle file (.response true (some r)) (.loaded dataUrl) saltHex id tsNow)
        = .live s' ∧
      renders s' = true ∧
      s'.history = newItem :: s.history ∧
      s'.sessionStorage.getItem HISTORY = some (JSON.stringify (.arr (newItem :: s.history))) ∧
      newItem.getProp "diagnosis" = some (diagnosisOf r) ∧
      (∀ v, r.getProp "prediction" = some v → v ≠ .null → diagnosisOf r = v) ∧
      (r.getProp "prediction" = none ∨ r.getProp "prediction" = some .null →
        diagnosisOf r = .str "Diagnóstico no disponible") ∧
      newItem.getProp "ts" = some (.num tsNow) ∧
      newItem.getProp "imageDataUrl" = some (.str dataUrl) ∧
      newItem.getProp "id" = some (.str id) ∧
      newItem.getProp "displayId" = some (.str (displayIdOf saltHex file.name tsNow)) ∧
      displayIdOf saltHex file.name tsNow
        = String.mk ((SHA256.sha256
            (saltHex ++ "|" ++ file.name ++ "|" ++ JS.StringOf tsNow)).data.take 12) ∧
      (displayIdOf saltHex file.name tsNow).length = 12 ∧
      (∀ c ∈ (displayIdOf saltHex file.name tsNow).data, SHA256.isHexChar c = true) ∧
      s'.result = diagnosisOf r ∧
      s'.loading = false ∧
      SHA256.sha256 "abc"
        = "ba7816bf8f01cfea414140de5dae2223b00361a396177a9cb410ff61f20015ad" ∧
      SHA256.sha256 "abcdbcdecdefdefgefghfghighijhijkijkljklmklmnlmnomnopnopq"
        = "248d6a61d20638b8e5c026930c3e6039a33ce45964ff2167f6ecedd419db06c1" ∧
      SHA256.sha256 "€😀|ß"
        = "ad928053d916fc989a9e7b6272b1cec096ce8fca5fab2054db4b474a342de140" ∧
      displayIdOf "00112233445566778899aabbccddeeff" "scan1.png" 1000 = "3de64e340e4c" := by
  have hr := renders_settle file r dataUrl saltHex id tsNow s hs hd
  have hlive : Page.react accepts (.live s)
      (.settle file (.response true (some r)) (.loaded dataUrl) saltHex id tsNow)
      = .live (commit (handleSubmitSettle file (.response true (some r)) (.loaded dataUrl)
          saltHex id tsNow s)) := by
    simp only [Page.react, if_neg hflight, apiResult, if_true]
    exact Page.rerender_of_renders accepts _ hr ha
  refine ⟨newItemOf id tsNow (diagnosisOf r) dataUrl (displayIdOf saltHex file.name tsNow),
    _, hlive, hr, rfl, commit_persisted _, rfl, diagnosisOf_present r, diagnosisOf_absent r,
    rfl, rfl, rfl, rfl, rfl, displayIdOf_length saltHex file.name tsNow,
    displayIdOf_isHex saltHex file.name tsNow, rfl, rfl, ?_, ?_, ?_, ?_⟩ <;> decide

/-- C5 amended, on the page of the example: `scan1.png` is in flight and is answered with the
prediction "No dementia" at time 2000. -/
theorem C5_rendered_submission_witness :
    Example.submitting.inFlight ≠ 0 ∧
    renders Example.submitting = true ∧
    (diagnosisOf Example.body).renderable = true ∧
    ∃ s' : AppState,
      Page.react Quota.unlimited (.live Example.submitting)
        (.settle ⟨"scan1.png"⟩ (.response true (some Example.body))
          (.loaded "data:image/png;base64,AAAA") "00112233445566778899aabbccddeeff" "u1" 2000)
        = .live s' ∧
      s'.history.length = 1 ∧
      s'.result = .str "No dementia" ∧
      s'.loading = false :=
  ⟨by decide, rfl, rfl,
    match C5_rendered_submission_adds_record Quota.unlimited Example.submitting ⟨"scan1.png"⟩
      Example.body "data:image/png;base64,AAAA" "00112233445566778899aabbccddeeff" "u1" 2000
      (by decide) rfl rfl rfl with
    | ⟨_, s', h⟩ =>
      ⟨s', h.1, by rw [h.2.2.1]; rfl, h.2.2.2.2.2.2.2.2.2.2.2.2.2.2.1,
        h.2.2.2.2.2.2.2.2.2.2.2.2.2.2.2.1⟩⟩

/-- C5 as stated fails: the response body `{"prediction": {"label": "x"}}` has a prediction
that is present and not null; the handler puts the record in front of the history and sets
the result to the object, the render of that state throws (lines 266 and 312) and the
component is unmounted: no result is displayed and no record is listed or persisted. -/
theorem C5_object_prediction_unmounts_page :
    Example.objectBody.getProp "prediction" = some (.obj [("label", .str "x")]) ∧
    diagnosisOf Example.objectBody = .obj [("label", .str "x")] ∧
    Page.run Quota.unlimited (Page.load Quota.unlimited 1000 ⟨[]⟩)
        [.selectFile (some ⟨"scan1.png"⟩), .submit] = .live Example.submitting ∧
    renders (handleSubmitSettle ⟨"scan1.png"⟩ (.response true (some Example.objectBody))
      (.loaded "data:image/png;base64,AAAA") "00112233445566778899aabbccddeeff" "u1" 2000
      Example.submitting) = false ∧
    Page.run Quota.unlimited (Page.load Quota.unlimited 1000 ⟨[]⟩) Example.objectUpload
      = .crashed ⟨[("session_start_ms", "1000"), ("rx_history", "[]")]⟩ := by
  refine ⟨rfl, rfl, rfl, rfl, rfl⟩

/-- The digest of js-sha256 on the standard test message. -/
theorem sha256_abc :
    SHA256.sha256 "abc" = "ba7816bf8f01cfea414140de5dae2223b00361a396177a9cb410ff61f20015ad" := by
  decide

/-- The scenario of the specification: `scan1.png` is answered with the prediction
"No dementia" at time 1000 in a fresh session. -/
theorem scenario_first_upload :
    Page.run Quota.unlimited (Page.load Quota.unlimited 500 ⟨[]⟩)
      [.selectFile (some ⟨"scan1.png"⟩), .submit,
        .settle ⟨"scan1.png"⟩ (.response true (some (.obj [("prediction", .str "No dementia")])))
          (.loaded "data:image/png;base64,AAAA") "00112233445566778899aabbccddeeff" "u1" 1000]
      = .live (run (mount 500 ⟨[]⟩) (Example.upload "u1" 1000)) ∧
    (run (mount 500 ⟨[]⟩) (Example.upload "u1" 1000)).history
      = [.obj [("id", .str "u1"), ("ts", .num 1000), ("diagnosis", .str "No dementia"),
          ("imageDataUrl", .str "data:image/png;base64,AAAA"),
          ("displayId", .str "3de64e340e4c")]] := by
  refine ⟨rfl, rfl⟩

/-! ## Hydrating a stored history -/

/-- C8: inside a valid window the stored text `[{},null,1]` is valid JSON and an array, so
the guard `Array.isArray(parsed)` keeps it: the hydrated history has three entries, none of
them a study record.  The render of that history throws on the `null` entry (`item.id`,
line 295), the component is unmounted and `rx_history` is left holding `[]`.  A stored array
whose entries can be rendered, such as `[1.5]`, stays as the history. -/
theorem C8_array_of_other_values_unmounts_page :
    startsFresh 2000 Example.oddHistory = false ∧
    Example.oddHistory.getItem HISTORY = some "[\x7b\x7d,null,1]" ∧
    JSON.parse "[\x7b\x7d,null,1]" = some (.arr [.obj [], .null, .num 1]) ∧
    (mountEffect 2000 (initialState Example.oddHistory)).history
      = [.obj [], .null, .num 1] ∧
    (mountEffect 2000 (initialState Example.oddHistory)).timer = some ⟨2000, 14399000⟩ ∧
    renders (persistEffect [] (mountEffect 2000 (initialState Example.oddHistory))) = false ∧
    Page.load Quota.unlimited 2000 Example.oddHistory
      = .crashed ⟨[("session_start_ms", "1000"), ("rx_history", "[]")]⟩ ∧
    ∃ s : AppState,
      Page.load Quota.unlimited 2000
        ⟨[("session_start_ms", "1000"), ("rx_history", "[1.5]")]⟩ = .live s ∧
      s.history = [.float "1.5"] ∧
      s.sessionStorage.getItem HISTORY = some "[1.5]" :=
  ⟨rfl, rfl, rfl, rfl, rfl, rfl, rfl, _, rfl, rfl, rfl⟩

/-- Text that is not valid JSON, and JSON that is not an array, give the empty history. -/
theorem load_of_malformed_history :
    (∃ s : AppState,
      Page.load Quota.unlimited 2000
        ⟨[("session_start_ms", "1000"), ("rx_history", "[1,")]⟩ = .live s ∧ s.history = []) ∧
    (∃ s : AppState,
      Page.load Quota.unlimited 2000
        ⟨[("session_start_ms", "1000"), ("rx_history", "\x7b\"a\":[1]\x7d")]⟩ = .live s ∧
      s.history = []) :=
  ⟨⟨_, rfl, rfl⟩, ⟨_, rfl, rfl⟩⟩

/-! ## Reloading the page -/

theorem dropWhile_head_false (p : Char → Bool) (c : Char) (cs : List Char) (h : p c = false) :
    (c :: cs).dropWhile p = c :: cs := by
  rw [List.dropWhile_cons, h]; rfl

theorem trimChars_of_ends (cs : List Char) (c d : Char) (tl it : List Char)
    (h1 : cs = c :: tl) (h2 : cs.reverse = d :: it) (hc : JS.isStrWhiteSpace c = false)
    (hd : JS.isStrWhiteSpace d = false) : JS.trimChars cs = cs := by
  unfold JS.trimChars
  rw [h1, dropWhile_head_false _ _ _ hc, ← h1, h2, dropWhile_head_false _ _ _ hd, ← h2,
    List.reverse_reverse]

theorem isDigit_not_space (c : Char) (h : JS.isDigit c = true) :
    JS.isStrWhiteSpace c = false := by
  simp only [JS.isDigit, Bool.and_eq_true, decide_eq_true_eq] at h
  simp only [JS.isStrWhiteSpace, Bool.or_eq_false_iff, Bool.and_eq_false_iff,
    decide_eq_false_iff_not]
  omega

/-- `Number(String(n))` is `n` for every integral `n`. -/
theorem Number_StringOf (n : Int) : JS.Number (JS.StringOf n) = some n := by
  obtain ⟨hall, hval, c, cs, hshape, _⟩ :=
    JSON.natDigits_spec (n.natAbs + 1) n.natAbs (Nat.lt_succ_self _)
  have hcd : JS.isDigit c = true := hall c (by rw [hshape]; exact List.mem_cons_self _ _)
  have hlast : ∃ d it, (JS.natDigits (n.natAbs + 1) n.natAbs).reverse = d :: it ∧
      JS.isDigit d = true := by
    cases hr : (JS.natDigits (n.natAbs + 1) n.natAbs).reverse with
    | nil =>
      rw [List.reverse_eq_nil_iff, hshape] at hr
      cases hr
    | cons d it =>
      refine ⟨d, it, rfl, hall d ?_⟩
      rw [← List.mem_reverse, hr]
      exact List.mem_cons_self _ _
  obtain ⟨d, it, hrev, hdd⟩ := hlast
  unfold JS.Number JS.StringOf JS.intChars
  by_cases hn : n < 0
  · rw [if_pos hn]
    have htrim : JS.trimChars ('-' :: JS.natDigits (n.natAbs + 1) n.natAbs)
        = '-' :: JS.natDigits (n.natAbs + 1) n.natAbs := by
      apply trimChars_of_ends _ '-' d _ (it ++ ['-']) rfl
      · rw [List.reverse_cons, hrev]; rfl
      · decide
      · exact isDigit_not_space d hdd
    simp only [htrim, if_true]
    have hne : JS.natDigits (n.natAbs + 1) n.natAbs ≠ [] := by
      rw [hshape]; exact List.cons_ne_nil _ _
    have hall' : (JS.natDigits (n.natAbs + 1) n.natAbs).all JS.isDigit = true := by
      rw [List.all_eq_true]; exact hall
    rw [if_pos ⟨hne, hall'⟩, hval]
    congr 1
    omega
  · rw [if_neg hn]
    have htrim : JS.trimChars (JS.natDigits (n.natAbs + 1) n.natAbs)
        = JS.natDigits (n.natAbs + 1) n.natAbs :=
      trimChars_of_ends _ c d cs it hshape hrev (isDigit_not_space c hcd)
        (isDigit_not_space d hdd)
    simp only [htrim]
    rw [hshape]
    simp only
    have hc1 : c ≠ '-' := by intro h; rw [h] at hcd; exact absurd hcd (by decide)
    have hc2 : c ≠ '+' := by intro h; rw [h] at hcd; exact absurd hcd (by decide)
    have hall' : (c :: cs).all JS.isDigit = true := by
      rw [List.all_eq_true, ← hshape]; exact hall
    rw [if_neg hc1, if_neg hc2, if_pos hall', ← hshape, hval]
    congr 1
    omega

theorem commit_frame (s : AppState) :
    (commit s).timer = s.timer ∧ (commit s).history = s.history ∧
    (commit s).sessionStorage.getItem SESSION_START
      = s.sessionStorage.getItem SESSION_START := by
  refine ⟨rfl, rfl, ?_⟩
  unfold commit persistEffect
  exact Storage.getItem_setItem_other _ _ _ _ history_ne_session.symm

theorem settle_frame (file : File) (fetched : FetchOutcome) (read : ReadOutcome)
    (saltHex id : String) (tsNow : Int) (s : AppState) :
    (handleSubmitSettle file fetched read saltHex id tsNow s).timer = s.timer ∧
    (handleSubmitSettle file fetched read saltHex id tsNow s).sessionStorage
      = s.sessionStorage ∧
    s.history <:+ (handleSubmitSettle file fetched read saltHex id tsNow s).history := by
  unfold handleSubmitSettle
  cases apiResult fetched with
  | none => exact ⟨rfl, rfl, List.suffix_refl _⟩
  | some apiRes =>
    cases read with
    | rejected => exact ⟨rfl, rfl, List.suffix_refl _⟩
    | loaded dataUrl => exact ⟨rfl, rfl, List.suffix_cons _ _⟩

theorem step_without_timer (s : AppState) (e : Event) (h : s.timer = none) :
    (step s e).timer = none ∧
    (step s e).sessionStorage.getItem SESSION_START
      = s.sessionStorage.getItem SESSION_START ∧
    (e ≠ .clear → s.history <:+ (step s e).history) := by
  cases e with
  | selectFile f => cases f <;> exact ⟨h, rfl, fun _ => List.suffix_refl _⟩
  | submit =>
    simp only [step]
    split_ifs
    · exact ⟨h, rfl, fun _ => List.suffix_refl _⟩
    · unfold handleSubmitStart
      cases s.file <;> exact ⟨h, rfl, fun _ => List.suffix_refl _⟩
  | settle file fetched read saltHex id tsNow =>
    have hfr := settle_frame file fetched read saltHex id tsNow s
    have hc := commit_frame (handleSubmitSettle file fetched read saltHex id tsNow s)
    simp only [step]
    split_ifs
    · exact ⟨h, rfl, fun _ => List.suffix_refl _⟩
    · cases hapi : apiResult fetched with
      | none => exact ⟨by rw [hfr.1, h], by rw [hfr.2.1], fun _ => hfr.2.2⟩
      | some apiRes =>
        cases hread : read with
        | rejected =>
          rw [hread] at hfr
          exact ⟨by rw [hfr.1, h], by rw [hfr.2.1], fun _ => hfr.2.2⟩
        | loaded dataUrl =>
          rw [hread] at hfr hc
          exact ⟨by rw [hc.1, hfr.1, h], by rw [hc.2.2, hfr.2.1],
            fun _ => by rw [hc.2.1]; exact hfr.2.2⟩
  | clear =>
    simp only [step]
    split_ifs
    · exact ⟨h, rfl, fun hne => absurd rfl hne⟩
    · refine ⟨h, ?_, fun hne => absurd rfl hne⟩
      rw [(commit_frame _).2.2]
      exact Storage.getItem_removeItem_other _ _ _ history_ne_session.symm
  | openDetail i =>
    simp only [step, openDetail]
    cases s.history.get? i <;> exact ⟨h, rfl, fun _ => List.suffix_refl _⟩
  | closeDetail => exact ⟨h, rfl, fun _ => List.suffix_refl _⟩
  | expire now =>
    have hd : timerDue now s = false := by unfold timerDue; rw [h]
    simp only [step, hd]
    exact ⟨h, rfl, fun _ => List.suffix_refl _⟩

theorem run_without_timer (events : List Event) (s : AppState) (h : s.timer = none) :
    (run s events).timer = none ∧
    (run s events).sessionStorage.getItem SESSION_START
      = s.sessionStorage.getItem SESSION_START ∧
    ((∀ e ∈ events, e ≠ .clear) → s.history <:+ (run s events).history) := by
  induction events generalizing s with
  | nil => exact ⟨h, rfl, fun _ => List.suffix_refl _⟩
  | cons e es ih =>
    obtain ⟨h1, h2, h3⟩ := step_without_timer s e h
    obtain ⟨i1, i2, i3⟩ := ih (step s e) h1
    refine ⟨i1, by rw [← h2]; exact i2, ?_⟩
    intro hall
    exact (h3 (hall e (List.mem_cons_self _ _))).trans
      (i3 fun e' he' => hall e' (List.mem_cons_of_mem _ he'))

/-- A window that the load started fresh has no timeout behind it, whatever happens on the
page afterwards: the persisted start stays `String(now)`, no expiry is ever due, and as long
as the clear button is not pressed every record that entered the history stays in it at all
later times. -/
theorem fresh_window_never_expires (storage : Storage) (now : Int) (events : List Event)
    (h : storage.getItem SESSION_START = none ∨
      ∃ startRaw startMs, storage.getItem SESSION_START = some startRaw ∧
        JS.Number startRaw = some startMs ∧ now - startMs ≥ FOUR_HOURS_MS) :
    (run (mount now storage) events).timer = none ∧
    (run (mount now storage) events).sessionStorage.getItem SESSION_START
      = some (JS.StringOf now) ∧
    JS.Number (JS.StringOf now) = some now ∧
    (∀ t : Int, advanceTo t (run (mount now storage) events) = run (mount now storage) events) ∧
    (∀ later : List Event, (∀ e ∈ later, e ≠ .clear) →
      (run (mount now storage) events).history
        <:+ (run (run (mount now storage) events) later).history) := by
  have hm : mountEffect now (initialState storage) = freshWindow now (initialState storage) :=
    mountEffect_fresh now (initialState storage) h
  have ht : (mount now storage).timer = none := by
    unfold mount; simp only [hm]; rfl
  have hs : (mount now storage).sessionStorage.getItem SESSION_START
      = some (JS.StringOf now) := by
    unfold mount; simp only [hm]; rfl
  obtain ⟨h1, h2, _⟩ := run_without_timer events (mount now storage) ht
  refine ⟨h1, by rw [h2, hs], Number_StringOf now, ?_, ?_⟩
  · intro t
    unfold advanceTo
    rw [h1]
  · intro later hl
    exact (run_without_timer later _ h1).2.2 hl

/-- Reloading inside the window brings the history back: over the storage of any state whose
persisted history follows its memory, holds values on which the model is exact, and whose
persisted start is `String(start)` with a non-zero `start` less than four hours before the
reload, the new page, when it is mounted, starts with the same history. -/
theorem reload_within_window_restores_history (s : AppState) (start now : Int)
    (hp : s.sessionStorage.getItem HISTORY = some (JSON.stringify (.arr s.history)))
    (hx : JSON.exact (.arr s.history) = true)
    (hs : s.sessionStorage.getItem SESSION_START = some (JS.StringOf start))
    (hnz : start ≠ 0) (hlt : now - start < FOUR_HOURS_MS) :
    (mount now s.sessionStorage).history = s.history := by
  rw [mount_history,
    mountEffect_valid now (initialState s.sessionStorage) (JS.StringOf start) start hs
      (Number_StringOf start) hnz hlt]
  show hydrate (s.sessionStorage.getItem HISTORY) [] = s.history
  rw [hp]
  exact hydrate_array _ [] _ (JSON.parse_stringify _ hx)
